/-
Verification of the InGAN network components (networks.py) against their
natural-language specification.

The development shallowly embeds the PyTorch code of networks.py:

* a 4-d tensor is a shape (batch, channels, height, width) together with a
  total data function; indices outside the shape carry junk values that no
  theorem depends on;
* tensor values are rationals for the loss/crop/swap components (exact
  arithmetic stands in for floats, and keeps everything decidable) and reals
  for the generator stack (whose final Tanh needs Real.tanh);
* learnable parameters (convolution weights after spectral normalisation,
  batch-norm statistics and affines) are universally quantified function
  arguments: every theorem holds for all parameter values;
* fallible tensor operations (shape mismatches, reflection pads that are too
  large for the input, pooling of too-small maps, out-of-range list indexing)
  return Option, mirroring the runtime errors of the original;
* Python slice semantics, including the wrap-around of negative start
  indices and the clamping of over-long stops, are modelled exactly;
* numpy randomness (crop offsets, crop sizes) is externalised: the sampled
  values are explicit arguments constrained to the ranges the samplers
  produce.
-/
import Mathlib

/-- A 4-dimensional tensor: shape (batch n, channels c, height h, width w)
plus a total data function. -/
structure Tensor (α : Type) where
  n : ℕ
  c : ℕ
  h : ℕ
  w : ℕ
  data : ℕ → ℕ → ℕ → ℕ → α

/-- Normalisation of a Python slice endpoint for a dimension of length len:
negative indices count from the end (clamped at 0), nonnegative indices are
clamped at len.  This is exactly how Python resolves t[a:b]. -/
def pyIdx (len : ℕ) (i : ℤ) : ℕ :=
  if i < 0 then ((len : ℤ) + i).toNat else min i.toNat len

/-- Assignment of a scalar over a Python slice of the last two dimensions,
t[:, :, a:b, c0:d0] = v, with Python endpoint semantics. -/
def Tensor.setSlice {α : Type} (t : Tensor α) (a b c0 d0 : ℤ) (v : α) : Tensor α :=
  { t with data := fun bi ci i j =>
      if pyIdx t.h a ≤ i ∧ i < pyIdx t.h b ∧ pyIdx t.w c0 ≤ j ∧ j < pyIdx t.w d0 then v
      else t.data bi ci i j }

/-- The crop t[:, :, v:v+cv, h0:h0+ch] (nonnegative offsets, Python clamping
of the endpoints at the dimension sizes). -/
def Tensor.crop {α : Type} (t : Tensor α) (v h0 cv ch : ℕ) : Tensor α :=
  ⟨t.n, t.c, min (v + cv) t.h - min v t.h, min (h0 + ch) t.w - min h0 t.w,
    fun bi ci i j => t.data bi ci (min v t.h + i) (min h0 t.w + j)⟩

/-- Assignment of a tensor over the slice t[:, :, v:v+cv, h0:h0+ch] = src
(nonnegative offsets). -/
def Tensor.setRegion {α : Type} (t : Tensor α) (v h0 cv ch : ℕ) (src : Tensor α) : Tensor α :=
  { t with data := fun bi ci i j =>
      if v ≤ i ∧ i < min (v + cv) t.h ∧ h0 ≤ j ∧ j < min (h0 + ch) t.w then
        src.data bi ci (i - v) (j - h0)
      else t.data bi ci i j }

/-- torch.ones_like. -/
def onesLike {α : Type} [One α] (t : Tensor α) : Tensor α :=
  { t with data := fun _ _ _ _ => 1 }

/-- torch.zeros_like. -/
def zerosLike {α : Type} [Zero α] (t : Tensor α) : Tensor α :=
  { t with data := fun _ _ _ _ => 0 }

/-- Sum of all entries of a tensor (torch.sum). -/
def tensorSum {α : Type} [AddCommMonoid α] (t : Tensor α) : α :=
  ∑ bi ∈ Finset.range t.n, ∑ ci ∈ Finset.range t.c,
    ∑ i ∈ Finset.range t.h, ∑ j ∈ Finset.range t.w, t.data bi ci i j

/-- Number of entries of a tensor. -/
def tensorCount {α : Type} (t : Tensor α) : ℕ := t.n * t.c * t.h * t.w

/-- nn.MSELoss (default mean reduction): mean of the squared elementwise
difference, summed over the shape of the first argument (the two arguments
have equal shapes at every call site modelled here). -/
def mseLoss {α : Type} [DivisionRing α] (input target : Tensor α) : α :=
  tensorSum { input with data := fun b c i j => (input.data b c i j - target.data b c i j) ^ 2 }
    / (tensorCount input : α)

/-- nn.L1Loss (default mean reduction) over rational tensors. -/
def l1Loss (input target : Tensor ℚ) : ℚ :=
  tensorSum { input with data := fun b c i j => |input.data b c i j - target.data b c i j| }
    / (tensorCount input : ℚ)

/- ----------------------------------------------------------------------
Loss modules (networks.py lines 52-102).  Methods are modelled in
state-passing style: forward takes the module and returns the module as it
is after the call, so that persistence of tensors on the module is statable.
---------------------------------------------------------------------- -/

/-- GANLoss module state: __init__ sets label_tensor = None; forward stores
the freshly built label map on the module. -/
structure GANLoss where
  label_tensor : Option (Tensor ℚ)

/-- GANLoss(): label_tensor starts as None. -/
def GANLoss.init : GANLoss := ⟨none⟩

/-- The label map built inside GANLoss.forward:
torch.ones_like(d_last_layer) * is_d_input_real (a bool multiplies as 1/0). -/
def ganLabel (d_last_layer : Tensor ℚ) (is_d_input_real : Bool) : Tensor ℚ :=
  { d_last_layer with data := fun _ _ _ _ => if is_d_input_real then 1 else 0 }

/-- GANLoss.forward: builds the label map, STORES it in self.label_tensor,
and returns the MSE of the discriminator map against it. -/
def GANLoss.forward (_m : GANLoss) (d_last_layer : Tensor ℚ) (is_d_input_real : Bool) :
    GANLoss × ℚ :=
  let label := ganLabel d_last_layer is_d_input_real
  (⟨some label⟩, mseLoss d_last_layer label)

/-- WeightedMSELoss module state: only the construction flag (the
nn.L1Loss / nn.MSELoss submodules are parameterless). -/
structure WeightedMSELoss where
  use_L1 : Bool

/-- WeightedMSELoss.forward: with a mask, sum of (target - input)^2 * mask
divided by the sum of the mask; without a mask, the unweighted L1 or MSE
loss according to the construction flag.  No attribute of self is written,
so the module comes back unchanged. -/
def WeightedMSELoss.forward (m : WeightedMSELoss) (input target : Tensor ℚ)
    (loss_mask : Option (Tensor ℚ)) : WeightedMSELoss × ℚ :=
  match loss_mask with
  | some mask =>
      (m, tensorSum { input with data := fun b c i j =>
            (target.data b c i j - input.data b c i j) ^ 2 * mask.data b c i j }
          / tensorSum mask)
  | none => (m, if m.use_L1 then l1Loss input target else mseLoss input target)

/-- MultiScaleLoss module state: __init__ assigns only self.mse (an
nn.MSELoss, parameterless); self.scale_factor is NEVER assigned, which we
record as an Option that construction leaves at none. -/
structure MultiScaleLoss where
  scale_factor : Option ℚ

/-- MultiScaleLoss(): scale_factor is not set by the constructor. -/
def MultiScaleLoss.init : MultiScaleLoss := ⟨none⟩

/-- One-dimensional source position, neighbour pair and interpolation weight
for bilinear interpolation with align_corners=False, exactly as PyTorch
computes them (source = max 0 (scale*(i+1/2) - 1/2), neighbour indices
clamped at inLen - 1). -/
def bilinearAux (inLen outLen : ℕ) (i : ℕ) : ℕ × ℕ × ℚ :=
  let scale : ℚ := (inLen : ℚ) / (outLen : ℚ)
  let src : ℚ := max 0 (scale * ((i : ℚ) + 1/2) - 1/2)
  let i0 : ℕ := min (Int.toNat ⌊src⌋) (inLen - 1)
  (i0, min (i0 + 1) (inLen - 1), src - ⌊src⌋)

/-- f.interpolate(x, size=(oh, ow), mode=bilinear) with the default
align_corners=False. -/
def interpBilinear {α : Type} [DivisionRing α] (oh ow : ℕ) (x : Tensor α) : Tensor α :=
  ⟨x.n, x.c, oh, ow, fun b c i j =>
    let ai := bilinearAux x.h oh i
    let aj := bilinearAux x.w ow j
    ((1 - ai.2.2 : ℚ) : α) *
        (((1 - aj.2.2 : ℚ) : α) * x.data b c ai.1 aj.1 +
          ((aj.2.2 : ℚ) : α) * x.data b c ai.1 aj.2.1) +
      ((ai.2.2 : ℚ) : α) *
        (((1 - aj.2.2 : ℚ) : α) * x.data b c ai.2.1 aj.1 +
          ((aj.2.2 : ℚ) : α) * x.data b c ai.2.1 aj.2.1)⟩

/-- f.interpolate with a scale_factor s: the output size is floor(size*s)
in each spatial dimension. -/
def interpBilinearScale {α : Type} [DivisionRing α] (s : ℚ) (x : Tensor α) : Tensor α :=
  interpBilinear (Int.toNat ⌊(x.h : ℚ) * s⌋) (Int.toNat ⌊(x.w : ℚ) * s⌋) x

/-- The loop body of MultiScaleLoss.forward.  Reading self.scale_factor when
it was never assigned raises AttributeError, modelled as none; otherwise the
running input is downsampled by scale_factor^(-i) and the weighted MSE
against the fixed target is accumulated. -/
def multiScaleGo (sf : Option ℚ) (target : Tensor ℚ) :
    ℕ → Tensor ℚ → ℚ → List ℚ → Option ℚ
  | _, _, loss, [] => some loss
  | i, cur, loss, wgt :: rest =>
    match sf with
    | none => none
    | some s =>
        let cur2 := interpBilinearScale (s ^ (-(i : ℤ))) cur
        multiScaleGo sf target (i + 1) cur2 (loss + wgt * mseLoss cur2 target) rest

/-- MultiScaleLoss.forward.  No attribute of self is written, so the module
comes back unchanged; the result is none when the unset scale factor is
read (which happens as soon as scale_weights is non-empty). -/
def MultiScaleLoss.forward (m : MultiScaleLoss) (input target : Tensor ℚ)
    (scale_weights : List ℚ) : MultiScaleLoss × Option ℚ :=
  (m, multiScaleGo m.scale_factor target 0 input 0 scale_weights)

/- ----------------------------------------------------------------------
RandomCrop and SwapCrops (networks.py lines 332-402).
---------------------------------------------------------------------- -/

/-- RandomCrop module: configured crop size (None in the SwapCrops usage),
the divisor, and the return_pos flag. -/
structure RandomCrop where
  crop_size : Option (ℕ × ℕ)
  must_divide : ℕ
  return_pos : Bool

/-- The effective crop size of RandomCrop.forward: an explicitly supplied
size is used verbatim; otherwise the configured size is clipped to
[0, dim-1] and floored to a multiple of must_divide (np.clip followed by
np.floor(. / must_divide) * must_divide). -/
def RandomCrop.effSize (rc : RandomCrop) (imv imh : ℕ) (explicit : Option (ℕ × ℕ)) :
    Option (ℕ × ℕ) :=
  match explicit with
  | some s => some s
  | none =>
    match rc.crop_size with
    | none => none
    | some s =>
        some (min s.1 (imv - 1) / rc.must_divide * rc.must_divide,
              min s.2 (imh - 1) / rc.must_divide * rc.must_divide)

/-- RandomCrop.forward.  The spatial size is read from the first tensor of
the list (error if the list is empty or starts with None).  The random
top-left offset np.random.randint(0, im - cr) is externalised into the
arguments top_left_v, top_left_h; the guard states exactly that the
arguments are values the sampler can produce (randint(0, k) needs k >= 1
and yields a value < k).  Every tensor of the list is cropped at the shared
offset; the offset is also returned when return_pos is set. -/
def RandomCrop.forward {α : Type} (rc : RandomCrop) (input_tensors : List (Option (Tensor α)))
    (explicit : Option (ℕ × ℕ)) (top_left_v top_left_h : ℕ) :
    Option (List (Option (Tensor α)) × Option (ℕ × ℕ)) :=
  match input_tensors with
  | [] => none
  | none :: _ => none
  | some t0 :: _ =>
    (rc.effSize t0.h t0.w explicit).bind fun cs =>
      if top_left_v + cs.1 < t0.h ∧ top_left_h + cs.2 < t0.w then
        some (input_tensors.map (Option.map (fun t => t.crop top_left_v top_left_h cs.1 cs.2)),
              if rc.return_pos then some (top_left_v, top_left_h) else none)
      else none

/-- SwapCrops module: crop size bounds and the mask half-width. -/
structure SwapCrops where
  min_crop_size : ℕ
  max_crop_size : ℕ
  mask_width : ℕ

/-- SwapCrops.forward.  The sampled crop size (cr_v, cr_h) and the two
sampled top-left offsets are externalised into arguments; both crops are
taken through self.rand_crop_1 (a RandomCrop(None, return_pos=True), as in
the source, which never uses rand_crop_2).  The output image is a copy of
the input with the contents of the two regions exchanged, and the loss mask
is all-ones with eight Python slice assignments of 0 drawing bands of
width 2*mask_width over the boundaries of the two regions. -/
def SwapCrops.forward {α : Type} [Zero α] [One α] (sc : SwapCrops) (input : Tensor α)
    (cr_v cr_h v1 h1 v2 h2 : ℕ) : Option (Tensor α × Tensor α) :=
  let rc1 : RandomCrop := ⟨none, 4, true⟩
  match rc1.forward [some input] (some (cr_v, cr_h)) v1 h1,
        rc1.forward [some input] (some (cr_v, cr_h)) v2 h2 with
  | some (some crop_1 :: _, _), some (some crop_2 :: _, _) =>
      let output0 := (zerosLike input).setRegion 0 0 input.h input.w input
      let output1 := output0.setRegion v1 h1 cr_v cr_h crop_2
      let output2 := output1.setRegion v2 h2 cr_v cr_h crop_1
      let mw : ℤ := sc.mask_width
      let lm0 := onesLike input
      let lm1 := lm0.setSlice v1 (v1 + cr_v) ((h1 : ℤ) - mw) ((h1 : ℤ) + mw) 0
      let lm2 := lm1.setSlice ((v1 : ℤ) - mw) ((v1 : ℤ) + mw) h1 (h1 + cr_h) 0
      let lm3 := lm2.setSlice v1 (v1 + cr_v) ((h1 : ℤ) + cr_h - mw) ((h1 : ℤ) + cr_h + mw) 0
      let lm4 := lm3.setSlice ((v1 : ℤ) + cr_v - mw) ((v1 : ℤ) + cr_v + mw) h1 (h1 + cr_h) 0
      let lm5 := lm4.setSlice v2 (v2 + cr_v) ((h2 : ℤ) - mw) ((h2 : ℤ) + mw) 0
      let lm6 := lm5.setSlice ((v2 : ℤ) - mw) ((v2 : ℤ) + mw) h2 (h2 + cr_h) 0
      let lm7 := lm6.setSlice v2 (v2 + cr_v) ((h2 : ℤ) + cr_h - mw) ((h2 : ℤ) + cr_h + mw) 0
      let lm8 := lm7.setSlice ((v2 : ℤ) + cr_v - mw) ((v2 : ℤ) + cr_v + mw) h2 (h2 + cr_h) 0
      some (output2, lm8)
  | _, _ => none

/- ----------------------------------------------------------------------
GeoTransform padding (networks.py lines 409-420) and the
MultiScaleDiscriminator scale count (lines 199-204).
---------------------------------------------------------------------- -/

/-- The horizontal reflect-padding widths computed by GeoTransform.forward:
(np.abs(np.int(np.ceil(w * shifts[0]))), np.abs(np.int(np.ceil(-w * shifts[1])))).
np.ceil produces an integer-valued float, np.int converts it exactly, and
np.abs takes the absolute value AFTER the ceiling. -/
def geoPads (w : ℕ) (shifts : ℚ × ℚ) : ℕ × ℕ :=
  (Int.natAbs ⌈(w : ℚ) * shifts.1⌉, Int.natAbs ⌈-(w : ℚ) * shifts.2⌉)

/-- The scale count computed in MultiScaleDiscriminator.__init__:
np.min([np.int(np.ceil(np.log(np.min(real_crop_size) / 16) / np.log(scale_factor))),
max_n_scales]), with the fixed floor self.min_size = 16. -/
noncomputable def msdNumScales (real_crop_size : ℕ × ℕ) (max_n_scales : ℤ)
    (scale_factor : ℝ) : ℤ :=
  min ⌈Real.log ((min real_crop_size.1 real_crop_size.2 : ℕ) / 16 : ℝ) / Real.log scale_factor⌉
    max_n_scales

/- ----------------------------------------------------------------------
The generator stack (networks.py lines 105-186, 274-329, 405-420), over
real-valued tensors.  Learnable parameters are arbitrary functions; the
weight stored for a spectrally normalised convolution is its effective
(post-normalisation) weight, which our theorems quantify over universally.
BatchNorm2d is modelled in its evaluation mode: per-channel affine of the
input normalised by the stored statistics (eps = 1e-5).
---------------------------------------------------------------------- -/

/-- Parameters of one conv + batch-norm unit: effective convolution weight
and bias, and the batch-norm affine and statistics. -/
structure ConvBN where
  weight : ℕ → ℕ → ℕ → ℕ → ℝ
  bias : ℕ → ℝ
  gamma : ℕ → ℝ
  beta : ℕ → ℝ
  mean : ℕ → ℝ
  varr : ℕ → ℝ

/-- Source row/column of a reflection pad with leading pad `pad`, for output
index i on a dimension of length len (PyTorch ReflectionPad2d indexing). -/
def reflectIdx (len pad : ℕ) (i : ℕ) : ℕ :=
  let t : ℤ := (i : ℤ) - pad
  if t < 0 then (-t).toNat
  else if (len : ℤ) ≤ t then (2 * ((len : ℤ) - 1) - t).toNat
  else t.toNat

/-- nn.ReflectionPad2d with pads (left pl, right pr, top pt, bottom pb).
PyTorch requires every pad to be smaller than the corresponding input
dimension; otherwise the call errors (none). -/
def reflectPad2d (pl pr pt pb : ℕ) (x : Tensor ℝ) : Option (Tensor ℝ) :=
  if pl < x.w ∧ pr < x.w ∧ pt < x.h ∧ pb < x.h then
    some ⟨x.n, x.c, x.h + pt + pb, x.w + pl + pr,
      fun b c i j => x.data b c (reflectIdx x.h pt i) (reflectIdx x.w pl j)⟩
  else none

/-- nn.Conv2d with kernel k, stride 1, no padding: the input must have
exactly inC channels and spatial dims at least k (else the call errors). -/
def conv2d (inC outC k : ℕ) (p : ConvBN) (x : Tensor ℝ) : Option (Tensor ℝ) :=
  if x.c = inC ∧ k ≤ x.h ∧ k ≤ x.w ∧ 1 ≤ k then
    some ⟨x.n, outC, x.h + 1 - k, x.w + 1 - k,
      fun b o i j => p.bias o +
        ∑ ci ∈ Finset.range inC, ∑ ki ∈ Finset.range k, ∑ kj ∈ Finset.range k,
          p.weight o ci ki kj * x.data b ci (i + ki) (j + kj)⟩
  else none

/-- nn.BatchNorm2d in evaluation mode (per-channel affine of the statistics-
normalised input, eps = 1e-5). -/
noncomputable def batchNorm2d (p : ConvBN) (x : Tensor ℝ) : Tensor ℝ :=
  { x with data := fun b c i j =>
      p.gamma c * ((x.data b c i j - p.mean c) / Real.sqrt (p.varr c + 1e-5)) + p.beta c }

/-- nn.LeakyReLU with the given negative slope. -/
noncomputable def leakyReLU (slope : ℝ) (x : Tensor ℝ) : Tensor ℝ :=
  { x with data := fun b c i j =>
      if 0 ≤ x.data b c i j then x.data b c i j else slope * x.data b c i j }

/-- nn.MaxPool2d(2, 2): halves both spatial dims (floor); errors when a
spatial dim is below the kernel size 2. -/
noncomputable def maxPool2 (x : Tensor ℝ) : Option (Tensor ℝ) :=
  if 2 ≤ x.h ∧ 2 ≤ x.w then
    some ⟨x.n, x.c, x.h / 2, x.w / 2,
      fun b c i j =>
        max (max (x.data b c (2 * i) (2 * j)) (x.data b c (2 * i) (2 * j + 1)))
            (max (x.data b c (2 * i + 1) (2 * j)) (x.data b c (2 * i + 1) (2 * j + 1)))⟩
  else none

/-- f.interpolate(x, scale_factor=s, mode=nearest): output size is
floor(size * s), the source index of output index i is floor(i * in / out). -/
def interpNearest (s : ℚ) (x : Tensor ℝ) : Tensor ℝ :=
  let oh : ℕ := Int.toNat ⌊(x.h : ℚ) * s⌋
  let ow : ℕ := Int.toNat ⌊(x.w : ℚ) * s⌋
  ⟨x.n, x.c, oh, ow, fun b c i j =>
    x.data b c (Int.toNat ⌊((i : ℚ) * x.h) / oh⌋) (Int.toNat ⌊((j : ℚ) * x.w) / ow⌋)⟩

/-- Elementwise torch addition; shapes must agree (the tensors added in the
generator are never broadcast). -/
def addT (a b : Tensor ℝ) : Option (Tensor ℝ) :=
  if a.n = b.n ∧ a.c = b.c ∧ a.h = b.h ∧ a.w = b.w then
    some { a with data := fun bi ci i j => a.data bi ci i j + b.data bi ci i j }
  else none

/-- Elementwise Tanh. -/
noncomputable def tanhT (x : Tensor ℝ) : Tensor ℝ :=
  { x with data := fun b c i j => Real.tanh (x.data b c i j) }

/-- One stage of a RescaleBlock: declared channel counts plus parameters. -/
structure RBLayer where
  inC : ℕ
  outC : ℕ
  p : ConvBN

/-- A RescaleBlock: its scale and its conv stages in application order. -/
structure RescaleBlock where
  scale : ℚ
  layers : List RBLayer

/-- RescaleBlock.__init__: stage i is built with in channels
base * 2^(i + (scale > 1)) and out channels base * 2^(i + (scale < 1)); the
assembled list is reversed when scale > 1 (the source fills slots by index
and then reverses, with the same net result). -/
def mkRescaleBlock (n_layers : ℕ) (scale : ℚ) (base_channels : ℕ)
    (params : ℕ → ConvBN) : RescaleBlock :=
  let inPow : ℕ := if 1 < scale then 1 else 0
  let outPow : ℕ := if scale < 1 then 1 else 0
  let ls := (List.range n_layers).map (fun i =>
    RBLayer.mk (base_channels * 2 ^ (i + inPow)) (base_channels * 2 ^ (i + outPow)) (params i))
  ⟨scale, if 1 < scale then ls.reverse else ls⟩

/-- One conv stage of a RescaleBlock: ReflectionPad2d(1), spectrally
normalised Conv2d(kernel 3, stride 1), normalisation layer, LeakyReLU(0.2). -/
noncomputable def rescaleConvForward (L : RBLayer) (x : Tensor ℝ) : Option (Tensor ℝ) :=
  (reflectPad2d 1 1 1 1 x).bind fun x1 =>
    (conv2d L.inC L.outC 3 L.p x1).map fun x2 => leakyReLU 0.2 (batchNorm2d L.p x2)

/-- The loop of RescaleBlock.forward, with the running stage counter i.
Per stage: nearest-neighbour upscale by the scale factor first when
scale > 1; the conv stage; when skip is set, addition of pyramid[-i-2]
(error if the pyramid is absent or the negative index is out of range);
max-pool by 2 when scale < 1; the feature map is appended to the collected
scales when return_all_scales is set. -/
noncomputable def rescaleGo (scale : ℚ) (pyr : Option (List (Tensor ℝ))) (retAll skip : Bool) :
    ℕ → List RBLayer → Tensor ℝ → List (Tensor ℝ) → Option (Tensor ℝ × List (Tensor ℝ))
  | _, [], fm, acc => some (fm, acc)
  | i, L :: rest, fm, acc =>
    let fm1 := if 1 < scale then interpNearest scale fm else fm
    (rescaleConvForward L fm1).bind fun fm2 =>
      (if skip then
          pyr.bind fun ps =>
            if i + 2 ≤ ps.length then (ps.get? (ps.length - (i + 2))).bind (addT fm2)
            else none
        else some fm2).bind fun fm3 =>
        (if scale < 1 then maxPool2 fm3 else some fm3).bind fun fm4 =>
          rescaleGo scale pyr retAll skip (i + 1) rest fm4
            (if retAll then acc ++ [fm4] else acc)

/-- RescaleBlock.forward: the input is prepended to the collected scales
when return_all_scales is set, and the collected scales are returned only
in that case (None otherwise). -/
noncomputable def RescaleBlock.forward (blk : RescaleBlock) (x : Tensor ℝ)
    (pyr : Option (List (Tensor ℝ))) (retAll skip : Bool) :
    Option (Tensor ℝ × Option (List (Tensor ℝ))) :=
  (rescaleGo blk.scale pyr retAll skip 0 blk.layers x (if retAll then [x] else [])).map
    fun r => (r.1, if retAll then some r.2 else none)

/-- A ResnetBlock: its width and the parameters of its three convolutions. -/
structure ResnetBlock where
  dim : ℕ
  p1 : ConvBN
  p2 : ConvBN
  p3 : ConvBN

/-- ResnetBlock.forward: 1x1 conv to dim/4, norm, LeakyReLU,
ReflectionPad2d(1), 3x3 conv, norm, LeakyReLU, 1x1 conv back to dim, norm,
then the additive identity shortcut. -/
noncomputable def ResnetBlock.forward (rb : ResnetBlock) (x : Tensor ℝ) : Option (Tensor ℝ) :=
  (conv2d rb.dim (rb.dim / 4) 1 rb.p1 x).bind fun y1 =>
    (reflectPad2d 1 1 1 1 (leakyReLU 0.2 (batchNorm2d rb.p1 y1))).bind fun y2 =>
      (conv2d (rb.dim / 4) (rb.dim / 4) 3 rb.p2 y2).bind fun y3 =>
        (conv2d (rb.dim / 4) rb.dim 1 rb.p3 (leakyReLU 0.2 (batchNorm2d rb.p2 y3))).bind fun y4 =>
          addT x (batchNorm2d rb.p3 y4)

/-- The bottleneck: the res-blocks applied in sequence. -/
noncomputable def bottleneckForward : List ResnetBlock → Tensor ℝ → Option (Tensor ℝ)
  | [], x => some x
  | rb :: rest, x => (rb.forward x).bind (bottleneckForward rest)

/-- Clamping of an integer index into [0, len). -/
def clampIdx (len : ℕ) (i : ℤ) : ℕ := Int.toNat (min (max i 0) ((len : ℤ) - 1))

/-- f.grid_sample(x, grid, mode=bilinear, padding_mode=border) with the
default align_corners=False: the grid supplies normalised coordinates in
[-1, 1] per (batch, row, column) of the output; they are unnormalised to
((g+1)*size - 1)/2 and sampled bilinearly with indices clamped at the
borders. -/
noncomputable def gridSampleBorder (x : Tensor ℝ) (oh ow : ℕ)
    (grid : ℕ → ℕ → ℕ → ℚ × ℚ) : Tensor ℝ :=
  ⟨x.n, x.c, oh, ow, fun b c i j =>
    let g := grid b i j
    let ix : ℚ := ((g.1 + 1) * x.w - 1) / 2
    let iy : ℚ := ((g.2 + 1) * x.h - 1) / 2
    let x0 : ℤ := ⌊ix⌋
    let y0 : ℤ := ⌊iy⌋
    let lx : ℚ := ix - x0
    let ly : ℚ := iy - y0
    ((1 - ly : ℚ) : ℝ) *
        (((1 - lx : ℚ) : ℝ) * x.data b c (clampIdx x.h y0) (clampIdx x.w x0) +
          ((lx : ℚ) : ℝ) * x.data b c (clampIdx x.h y0) (clampIdx x.w (x0 + 1))) +
      ((ly : ℚ) : ℝ) *
        (((1 - lx : ℚ) : ℝ) * x.data b c (clampIdx x.h (y0 + 1)) (clampIdx x.w x0) +
          ((lx : ℚ) : ℝ) * x.data b c (clampIdx x.h (y0 + 1)) (clampIdx x.w (x0 + 1)))⟩

/-- GeoTransform.forward.  The homography construction
(homography_based_on_top_corners_x_shift) and the grid generator
(homography_grid) live outside this repository (util.py); per the spec they
are consumed as black-box collaborators, so they are abstracted into the
argument gridGen, of which only the spec-stated property is used: it maps
the shift descriptor and the target size to a per-pixel sampling grid OF
THE TARGET SIZE.  The tensor is first horizontally reflect-padded by
geoPads, then resampled on the grid. -/
noncomputable def geoTransformForward (gridGen : (ℚ × ℚ) → ℕ × ℕ → ℕ → ℕ → ℕ → ℚ × ℚ)
    (x : Tensor ℝ) (target : ℕ × ℕ) (shifts : ℚ × ℚ) : Option (Tensor ℝ) :=
  (reflectPad2d (geoPads x.w shifts).1 (geoPads x.w shifts).2 0 0 x).map fun padt =>
    gridSampleBorder padt target.1 target.2 (gridGen shifts target)

/-- The Generator module: skip flag and the five stages of the pipeline. -/
structure Generator where
  base_channels : ℕ
  skip : Bool
  entryP : ConvBN
  geoGrid : (ℚ × ℚ) → ℕ × ℕ → ℕ → ℕ → ℕ → ℚ × ℚ
  downBlock : RescaleBlock
  bottleneck : List ResnetBlock
  upBlock : RescaleBlock
  finalP : ConvBN

/-- The parameter supply from which a Generator is built: one ConvBN per
convolution site (entry; downscale stage i; res-block t convolution k;
upscale stage i; final), plus the abstracted geometric-grid collaborator. -/
structure GenParams where
  entry : ConvBN
  down : ℕ → ConvBN
  res : ℕ → ℕ → ConvBN
  up : ℕ → ConvBN
  final : ConvBN
  geoGrid : (ℚ × ℚ) → ℕ × ℕ → ℕ → ℕ → ℕ → ℚ × ℚ

/-- Generator.__init__: entry block 3 -> base channels; downscale
RescaleBlock(n_downsampling, 0.5, base); n_blocks res-blocks at width
base * 2^n_downsampling; upscale RescaleBlock(n_downsampling, 2.0, base);
final block base -> 3 channels. -/
def mkGenerator (base_channels n_blocks n_downsampling : ℕ) (skip_flag : Bool)
    (P : GenParams) : Generator :=
  ⟨base_channels, skip_flag, P.entry, P.geoGrid,
    mkRescaleBlock n_downsampling (1 / 2) base_channels P.down,
    (List.range n_blocks).map (fun t =>
      ResnetBlock.mk (base_channels * 2 ^ n_downsampling) (P.res t 0) (P.res t 1) (P.res t 2)),
    mkRescaleBlock n_downsampling 2 base_channels P.up,
    P.final⟩

/-- The entry block: ReflectionPad2d(3), spectrally normalised
Conv2d(3 -> base, kernel 7), normalisation, LeakyReLU(0.2). -/
noncomputable def entryBlockForward (base : ℕ) (p : ConvBN) (x : Tensor ℝ) :
    Option (Tensor ℝ) :=
  (reflectPad2d 3 3 3 3 x).bind fun x1 =>
    (conv2d 3 base 7 p x1).map fun x2 => leakyReLU 0.2 (batchNorm2d p x2)

/-- The final block: ReflectionPad2d(3), Conv2d(base -> 3, kernel 7), Tanh. -/
noncomputable def finalBlockForward (base : ℕ) (p : ConvBN) (x : Tensor ℝ) :
    Option (Tensor ℝ) :=
  (reflectPad2d 3 3 3 3 x).bind fun x1 => (conv2d base 3 7 p x1).map tanhT

/-- Generator.forward: entry block; bilinear resize to output_size when no
shift descriptor is supplied, GeoTransform otherwise; downscale block
(collecting all scales exactly when skip connections are on); bottleneck;
upscale block (fusing the collected pyramid exactly when skip connections
are on); final block. -/
noncomputable def Generator.forward (g : Generator) (x : Tensor ℝ) (output_size : ℕ × ℕ)
    (random_affine : Option (ℚ × ℚ)) : Option (Tensor ℝ) :=
  (entryBlockForward g.base_channels g.entryP x).bind fun fm0 =>
    (match random_affine with
      | none => some (interpBilinear output_size.1 output_size.2 fm0)
      | some sh => geoTransformForward g.geoGrid fm0 output_size sh).bind fun fm1 =>
      (g.downBlock.forward fm1 none g.skip false).bind fun dres =>
        (bottleneckForward g.bottleneck dres.1).bind fun fm2 =>
          (g.upBlock.forward fm2 dres.2 false g.skip).bind fun ures =>
            finalBlockForward g.base_channels g.finalP ures.1

/- ----------------------------------------------------------------------
Shape simp lemmas for the structure-update layers.
---------------------------------------------------------------------- -/

@[simp] lemma setSlice_n {α : Type} (t : Tensor α) (a b c0 d0 : ℤ) (v : α) :
    (t.setSlice a b c0 d0 v).n = t.n := rfl

@[simp] lemma setSlice_c {α : Type} (t : Tensor α) (a b c0 d0 : ℤ) (v : α) :
    (t.setSlice a b c0 d0 v).c = t.c := rfl

@[simp] lemma setSlice_h {α : Type} (t : Tensor α) (a b c0 d0 : ℤ) (v : α) :
    (t.setSlice a b c0 d0 v).h = t.h := rfl

@[simp] lemma setSlice_w {α : Type} (t : Tensor α) (a b c0 d0 : ℤ) (v : α) :
    (t.setSlice a b c0 d0 v).w = t.w := rfl

@[simp] lemma setRegion_n {α : Type} (t : Tensor α) (v h0 cv ch : ℕ) (src : Tensor α) :
    (t.setRegion v h0 cv ch src).n = t.n := rfl

@[simp] lemma setRegion_c {α : Type} (t : Tensor α) (v h0 cv ch : ℕ) (src : Tensor α) :
    (t.setRegion v h0 cv ch src).c = t.c := rfl

@[simp] lemma setRegion_h {α : Type} (t : Tensor α) (v h0 cv ch : ℕ) (src : Tensor α) :
    (t.setRegion v h0 cv ch src).h = t.h := rfl

@[simp] lemma setRegion_w {α : Type} (t : Tensor α) (v h0 cv ch : ℕ) (src : Tensor α) :
    (t.setRegion v h0 cv ch src).w = t.w := rfl

@[simp] lemma onesLike_h {α : Type} [One α] (t : Tensor α) : (onesLike t).h = t.h := rfl

@[simp] lemma onesLike_w {α : Type} [One α] (t : Tensor α) : (onesLike t).w = t.w := rfl

@[simp] lemma onesLike_n {α : Type} [One α] (t : Tensor α) : (onesLike t).n = t.n := rfl

@[simp] lemma onesLike_c {α : Type} [One α] (t : Tensor α) : (onesLike t).c = t.c := rfl

/- ----------------------------------------------------------------------
C3.  MultiScaleLoss.forward reads the never-assigned self.scale_factor as
soon as the scale-weight list is non-empty, so the call fails instead of
returning the weighted multi-scale MSE.
---------------------------------------------------------------------- -/

/-- C3: for every prediction, target and NON-EMPTY scale-weight vector, the
forward call of a constructed MultiScaleLoss fails (the code reads
self.scale_factor, which __init__ never assigns), rather than completing
with the weighted multi-scale MSE the claim describes. -/
theorem multiScaleLoss_forward_fails_on_nonempty_weights
    (input target : Tensor ℚ) (scale_weights : List ℚ) (hne : scale_weights ≠ []) :
    (MultiScaleLoss.init.forward input target scale_weights).2 = none := by
  cases scale_weights with
  | nil => exact absurd rfl hne
  | cons wgt rest => simp [MultiScaleLoss.forward, MultiScaleLoss.init, multiScaleGo]

/-- A 1x1x1x1 probe tensor. -/
def probe1 : Tensor ℚ := ⟨1, 1, 1, 1, fun _ _ _ _ => 0⟩

/-- Witness for C3 at the concrete weight list [1]. -/
theorem multiScaleLoss_forward_fails_witness :
    (MultiScaleLoss.init.forward probe1 probe1 [1]).2 = none :=
  multiScaleLoss_forward_fails_on_nonempty_weights probe1 probe1 [1] (by simp)

/- ----------------------------------------------------------------------
C10.  Loss-module state across invocations.
---------------------------------------------------------------------- -/

/-- C10 counterexample: a GANLoss.forward invocation does NOT leave the
module state unchanged: the label tensor built during the call is stored in
self.label_tensor (None before the first call, a tensor after it). -/
theorem ganLoss_forward_mutates_state :
    (GANLoss.forward GANLoss.init probe1 true).1 ≠ GANLoss.init := by
  simp [GANLoss.forward, GANLoss.init]

/-- C10 as amended: WeightedMSELoss.forward and MultiScaleLoss.forward
leave their module state unchanged, while GANLoss.forward stores the label
map it builds on the module (so a tensor computed during one invocation
does persist into the next); the stored state never influences a later
result: GANLoss.forward returns the same loss whatever label_tensor the
module holds on entry. -/
theorem lossModule_state_behaviour :
    (∀ (m : WeightedMSELoss) (input target : Tensor ℚ) (msk : Option (Tensor ℚ)),
        (m.forward input target msk).1 = m) ∧
    (∀ (m : MultiScaleLoss) (input target : Tensor ℚ) (ws : List ℚ),
        (m.forward input target ws).1 = m) ∧
    (∀ (m : GANLoss) (d : Tensor ℚ) (r : Bool),
        ((m.forward d r).1).label_tensor = some (ganLabel d r)) ∧
    (∀ (m1 m2 : GANLoss) (d : Tensor ℚ) (r : Bool),
        (m1.forward d r).2 = (m2.forward d r).2) := by
  refine ⟨fun m input target msk => ?_, fun m input target ws => rfl,
    fun m d r => rfl, fun m1 m2 d r => rfl⟩
  cases msk <;> rfl

/- ----------------------------------------------------------------------
C8.  WeightedMSELoss with a mask.
---------------------------------------------------------------------- -/

/-- C8: with a (non-null) mask the loss is the mask-weighted sum of squared
errors divided by the sum of the mask, whatever the use_L1 construction
flag; and with an all-ones mask it equals the plain mean-squared error. -/
theorem weightedMSELoss_masked (m : WeightedMSELoss) (input target mask : Tensor ℚ)
    (hn : target.n = input.n) (hc : target.c = input.c)
    (hh : target.h = input.h) (hw : target.w = input.w)
    (hmn : mask.n = input.n) (hmc : mask.c = input.c)
    (hmh : mask.h = input.h) (hmw : mask.w = input.w) :
    (m.forward input target (some mask)).2 =
      tensorSum { input with data := fun b c i j =>
          (target.data b c i j - input.data b c i j) ^ 2 * mask.data b c i j }
        / tensorSum mask ∧
    (mask = onesLike input → (m.forward input target (some mask)).2 = mseLoss input target) := by
  refine ⟨rfl, fun hmask => ?_⟩
  subst hmask
  have hones : tensorSum (onesLike input) = (tensorCount input : ℚ) := by
    simp [tensorSum, onesLike, tensorCount]
    ring
  have hnum :
      tensorSum { input with data := fun b c i j =>
          (target.data b c i j - input.data b c i j) ^ 2 * (onesLike input).data b c i j } =
      tensorSum { input with data := fun b c i j =>
          (input.data b c i j - target.data b c i j) ^ 2 } := by
    simp only [tensorSum]
    refine Finset.sum_congr rfl fun bi _ => Finset.sum_congr rfl fun ci _ =>
      Finset.sum_congr rfl fun i _ => Finset.sum_congr rfl fun j _ => ?_
    show (target.data bi ci i j - input.data bi ci i j) ^ 2 * (1 : ℚ) =
      (input.data bi ci i j - target.data bi ci i j) ^ 2
    ring
  show tensorSum { input with data := fun b c i j =>
        (target.data b c i j - input.data b c i j) ^ 2 * (onesLike input).data b c i j }
      / tensorSum (onesLike input) = mseLoss input target
  rw [hones, hnum]
  rfl

/-- Witness for C8 on concrete 1x1x1x1 tensors with the all-ones mask. -/
theorem weightedMSELoss_masked_witness :
    ((⟨false⟩ : WeightedMSELoss).forward probe1 probe1 (some (onesLike probe1))).2 =
      mseLoss probe1 probe1 :=
  (weightedMSELoss_masked ⟨false⟩ probe1 probe1 (onesLike probe1)
    rfl rfl rfl rfl rfl rfl rfl rfl).2 rfl

/- ----------------------------------------------------------------------
C4.  GeoTransform reflect-padding widths.
---------------------------------------------------------------------- -/

/-- C4 counterexample: for width 5 and shifts (-1/2, 0) the code pads the
left side by abs(ceil(5 * (-1/2))) = 2, while the claim demands
ceil(5 * abs(-1/2)) = 3. -/
theorem geoPads_not_ceil_of_abs :
    geoPads 5 (-(1 / 2), 0) = (2, 0) ∧ ⌈(5 : ℚ) * |(-(1 / 2) : ℚ)|⌉ = 3 := by
  have h1 : ⌈(5 : ℚ) * (-(1 / 2))⌉ = -2 := by
    rw [show (5 : ℚ) * (-(1 / 2)) = -(5 / 2) by norm_num]
    refine Int.ceil_eq_iff.mpr ?_
    constructor <;> norm_num
  have h2 : ⌈-(5 : ℚ) * 0⌉ = 0 := by
    rw [show -(5 : ℚ) * 0 = 0 by ring]
    exact Int.ceil_zero
  have h3 : ⌈(5 : ℚ) * |(-(1 / 2) : ℚ)|⌉ = 3 := by
    rw [show (5 : ℚ) * |(-(1 / 2) : ℚ)| = 5 / 2 by
      rw [abs_of_nonpos (by norm_num)]
      norm_num]
    refine Int.ceil_eq_iff.mpr ?_
    constructor <;> norm_num
  refine ⟨?_, h3⟩
  show (Int.natAbs ⌈(5 : ℚ) * (-(1 / 2))⌉, Int.natAbs ⌈-(5 : ℚ) * 0⌉) = (2, 0)
  rw [h1, h2]
  rfl

/-- C4 as amended: GeoTransform.forward reflect-pads horizontally with
left pad abs(ceil(w * left_shift)) and right pad abs(ceil(-w * right_shift));
these equal ceil(w * abs(shift)) when the left shift is nonnegative
(resp. the right shift is nonpositive), and floor(w * abs(shift)) for the
opposite signs. -/
theorem geoPads_characterisation (w : ℕ) (s : ℚ × ℚ) :
    geoPads w s =
      ((if 0 ≤ s.1 then Int.toNat ⌈(w : ℚ) * s.1⌉ else Int.toNat ⌊(w : ℚ) * (-s.1)⌋),
       (if s.2 ≤ 0 then Int.toNat ⌈(w : ℚ) * (-s.2)⌉ else Int.toNat ⌊(w : ℚ) * s.2⌋)) := by
  unfold geoPads
  have hwn : (0 : ℚ) ≤ (w : ℚ) := by positivity
  refine Prod.ext ?_ ?_
  · show Int.natAbs ⌈(w : ℚ) * s.1⌉ = _
    by_cases hs : 0 ≤ s.1
    · rw [if_pos hs]
      have : (0 : ℤ) ≤ ⌈(w : ℚ) * s.1⌉ := Int.ceil_nonneg (mul_nonneg hwn hs)
      omega
    · rw [if_neg hs]
      have hle : ⌈(w : ℚ) * s.1⌉ ≤ 0 := by
        refine Int.ceil_le.mpr ?_
        push_cast
        nlinarith [mul_nonneg hwn (neg_nonneg.mpr (le_of_not_le hs))]
      have hfl : ⌊(w : ℚ) * (-s.1)⌋ = -⌈(w : ℚ) * s.1⌉ := by
        rw [show (w : ℚ) * (-s.1) = -((w : ℚ) * s.1) by ring, Int.floor_neg]
      omega
  · show Int.natAbs ⌈-(w : ℚ) * s.2⌉ = _
    rw [show -(w : ℚ) * s.2 = (w : ℚ) * (-s.2) by ring]
    by_cases hs : s.2 ≤ 0
    · rw [if_pos hs]
      have : (0 : ℤ) ≤ ⌈(w : ℚ) * (-s.2)⌉ :=
        Int.ceil_nonneg (mul_nonneg hwn (by linarith))
      omega
    · rw [if_neg hs]
      have hle : ⌈(w : ℚ) * (-s.2)⌉ ≤ 0 := by
        refine Int.ceil_le.mpr ?_
        push_cast
        nlinarith [mul_nonneg hwn (le_of_lt (lt_of_not_le hs))]
      have hfl : ⌊(w : ℚ) * s.2⌋ = -⌈(w : ℚ) * (-s.2)⌉ := by
        rw [show (w : ℚ) * s.2 = -((w : ℚ) * (-s.2)) by ring, Int.floor_neg]
      omega

/- ----------------------------------------------------------------------
C2.  MultiScaleDiscriminator scale count.
---------------------------------------------------------------------- -/

/-- The concrete scale count at real_crop_size (256, 256), max 9, factor 2:
ceil(log(256/16)/log 2) = ceil(4) = 4, so the minimum with 9 is 4. -/
lemma msdNumScales_256 : msdNumScales (256, 256) 9 2 = 4 := by
  unfold msdNumScales
  have h0 : ((min 256 256 : ℕ) : ℝ) / 16 = 16 := by norm_num
  rw [h0]
  have h1 : Real.log (16 : ℝ) = (4 : ℕ) * Real.log 2 := by
    rw [show (16 : ℝ) = 2 ^ (4 : ℕ) by norm_num, Real.log_pow]
  have h2 : Real.log (2 : ℝ) ≠ 0 := ne_of_gt (Real.log_pos (by norm_num))
  rw [h1, mul_div_assoc, div_self h2, mul_one]
  rw [show ((4 : ℕ) : ℝ) = ((4 : ℤ) : ℝ) by norm_num, Int.ceil_intCast]
  norm_num

/-- C2 counterexample: at real_crop_size = (256, 256), max_n_scales = 9,
scale_factor = 2 the constructed scale count is 4, not the claimed 5. -/
theorem msdNumScales_concrete_is_four :
    msdNumScales (256, 256) 9 2 = 4 ∧ (4 : ℤ) ≠ 5 :=
  ⟨msdNumScales_256, by norm_num⟩

/-- C2 as amended: the scale count is min(max_n_scales,
ceil(log(min(real_crop_size)/16)/log(scale_factor))); for scale factors
above 1 and positive crop sizes it is monotonically non-decreasing in
min(real_crop_size); it never exceeds max_n_scales; and at
((256,256), 9, 2) it equals 4 (not 5). -/
theorem msdNumScales_behaviour (s1 s2 : ℕ × ℕ) (maxN : ℤ) (sf : ℝ)
    (hpos : 0 < min s1.1 s1.2) (hmono : min s1.1 s1.2 ≤ min s2.1 s2.2) (hsf : 1 < sf) :
    msdNumScales s1 maxN sf =
      min ⌈Real.log ((min s1.1 s1.2 : ℕ) / 16 : ℝ) / Real.log sf⌉ maxN ∧
    msdNumScales s1 maxN sf ≤ msdNumScales s2 maxN sf ∧
    msdNumScales s1 maxN sf ≤ maxN ∧
    msdNumScales (256, 256) 9 2 = 4 := by
  refine ⟨rfl, ?_, min_le_right _ _, msdNumScales_256⟩
  unfold msdNumScales
  refine min_le_min (Int.ceil_le_ceil ?_) le_rfl
  have hlog : 0 < Real.log sf := Real.log_pos hsf
  have h16 : (0 : ℝ) < 16 := by norm_num
  have hm1 : (0 : ℝ) < ((min s1.1 s1.2 : ℕ) : ℝ) := by exact_mod_cast hpos
  refine (div_le_div_right hlog).mpr ?_
  refine Real.log_le_log (div_pos hm1 h16) ?_
  refine (div_le_div_right h16).mpr ?_
  exact_mod_cast hmono

/-- Witness for C2 as amended, at crop sizes (16,16) and (32,32), max 9,
factor 2. -/
theorem msdNumScales_behaviour_witness :
    msdNumScales (16, 16) 9 2 ≤ msdNumScales (32, 32) 9 2 :=
  (msdNumScales_behaviour (16, 16) (32, 32) 9 2 (by norm_num) (by norm_num)
    (by norm_num)).2.1

/- ----------------------------------------------------------------------
C6.  RandomCrop output sizes.
---------------------------------------------------------------------- -/

/-- Characterisation of a successful RandomCrop.forward call: the effective
size was computed, the sampled offset is in the legal range, and every
tensor of the list was cropped at the shared offset. -/
lemma randomCrop_forward_char (rc : RandomCrop) (ts : List (Option (Tensor ℚ)))
    (explicit : Option (ℕ × ℕ)) (v h0 : ℕ) (outs : List (Option (Tensor ℚ)))
    (pos : Option (ℕ × ℕ)) (t0 : Tensor ℚ)
    (hfwd : rc.forward ts explicit v h0 = some (outs, pos))
    (hhead : ts.head? = some (some t0)) :
    ∃ cv ch, rc.effSize t0.h t0.w explicit = some (cv, ch) ∧
      v + cv < t0.h ∧ h0 + ch < t0.w ∧
      outs = ts.map (Option.map (fun t => t.crop v h0 cv ch)) := by
  obtain ⟨o0, rest, rfl⟩ : ∃ o0 rest, ts = o0 :: rest := by
    cases ts with
    | nil => simp at hhead
    | cons a b => exact ⟨a, b, rfl⟩
  have ho0 : o0 = some t0 := by simpa using hhead
  subst ho0
  simp only [RandomCrop.forward] at hfwd
  cases hcs : rc.effSize t0.h t0.w explicit with
  | none => rw [hcs] at hfwd; simp at hfwd
  | some cs =>
    rw [hcs] at hfwd
    simp only [Option.some_bind] at hfwd
    by_cases hg : v + cs.1 < t0.h ∧ h0 + cs.2 < t0.w
    · rw [if_pos hg] at hfwd
      refine ⟨cs.1, cs.2, by simpa using hcs, hg.1, hg.2, ?_⟩
      have := (Option.some.injEq _ _).mp hfwd
      exact ((Prod.mk.injEq _ _ _ _).mp this).1.symm
    · rw [if_neg hg] at hfwd
      simp at hfwd

/-- C6 as amended: every crop returned by RandomCrop.forward on a list of
co-registered tensors has the spatial size of the computed effective crop
size; in the configured path (no explicit size at the call) that size is a
multiple of must_divide and strictly smaller than the source in each
dimension, while an explicitly supplied size is used verbatim (no clamping
and no flooring to a multiple of must_divide). -/
theorem randomCrop_output_dims (rc : RandomCrop) (ts : List (Option (Tensor ℚ)))
    (explicit : Option (ℕ × ℕ)) (v h0 : ℕ) (outs : List (Option (Tensor ℚ)))
    (pos : Option (ℕ × ℕ)) (t0 : Tensor ℚ)
    (hfwd : rc.forward ts explicit v h0 = some (outs, pos))
    (hhead : ts.head? = some (some t0))
    (hco : ∀ ot ∈ ts, ∀ t, ot = some t → t.h = t0.h ∧ t.w = t0.w) :
    ∀ o ∈ outs, ∀ t', o = some t' →
      (explicit = none →
        rc.must_divide ∣ t'.h ∧ rc.must_divide ∣ t'.w ∧ t'.h < t0.h ∧ t'.w < t0.w) ∧
      (∀ es, explicit = some es → t'.h = es.1 ∧ t'.w = es.2) := by
  obtain ⟨cv, ch, hcs, hgv, hgh, houts⟩ :=
    randomCrop_forward_char rc ts explicit v h0 outs pos t0 hfwd hhead
  subst houts
  intro o ho t' ht'
  rw [List.mem_map] at ho
  obtain ⟨ot, hot, rfl⟩ := ho
  rw [Option.map_eq_some'] at ht'
  obtain ⟨t, hts, hmap⟩ := ht'
  obtain ⟨hth, htw⟩ := hco ot hot t hts
  have ht'h : t'.h = cv := by
    rw [← hmap]
    show min (v + cv) t.h - min v t.h = cv
    rw [hth]
    omega
  have ht'w : t'.w = ch := by
    rw [← hmap]
    show min (h0 + ch) t.w - min h0 t.w = ch
    rw [htw]
    omega
  constructor
  · intro hex
    subst hex
    cases hcrop : rc.crop_size with
    | none => rw [RandomCrop.effSize, hcrop] at hcs; simp at hcs
    | some s =>
      rw [RandomCrop.effSize, hcrop] at hcs
      simp only [Option.some.injEq, Prod.mk.injEq] at hcs
      obtain ⟨hcv, hch⟩ := hcs
      refine ⟨?_, ?_, ?_, ?_⟩
      · rw [ht'h, ← hcv]; exact dvd_mul_left _ _
      · rw [ht'w, ← hch]; exact dvd_mul_left _ _
      · have h1 : min s.1 (t0.h - 1) / rc.must_divide * rc.must_divide ≤ min s.1 (t0.h - 1) :=
          Nat.div_mul_le_self _ _
        omega
      · have h1 : min s.2 (t0.w - 1) / rc.must_divide * rc.must_divide ≤ min s.2 (t0.w - 1) :=
          Nat.div_mul_le_self _ _
        omega
  · intro es hex
    subst hex
    rw [RandomCrop.effSize] at hcs
    simp only [Option.some.injEq] at hcs
    subst hcs
    exact ⟨ht'h, ht'w⟩

/-- A 1x1x10x10 probe tensor. -/
def probe10 : Tensor ℚ := ⟨1, 1, 10, 10, fun _ _ _ _ => 0⟩

/-- Witness for C6 as amended: a RandomCrop configured with size (8, 8) and
must_divide 4 on a 10x10 source, configured path, offset (0, 0): the
returned 8x8 crop has both dimensions divisible by 4 and strictly below the
source's 10x10. -/
theorem randomCrop_output_dims_witness :
    4 ∣ (probe10.crop 0 0 8 8).h ∧ 4 ∣ (probe10.crop 0 0 8 8).w ∧
      (probe10.crop 0 0 8 8).h < probe10.h ∧ (probe10.crop 0 0 8 8).w < probe10.w :=
  (randomCrop_output_dims ⟨some (8, 8), 4, false⟩ [some probe10] none 0 0
    [some (probe10.crop 0 0 8 8)] none probe10 rfl rfl
    (by intro ot hot t hts; simp at hot; rw [hot] at hts; simp at hts; rw [← hts]; exact ⟨rfl, rfl⟩)
    (some (probe10.crop 0 0 8 8)) (List.mem_singleton.mpr rfl)
    (probe10.crop 0 0 8 8) rfl).1 rfl

/-- C6 counterexample: an explicitly supplied crop size is used verbatim,
so with must_divide = 4 the call with explicit size (3, 3) on a 10x10
source returns a 3x3 crop, whose dimensions are not multiples of 4. -/
theorem randomCrop_explicit_size_not_multiple :
    (RandomCrop.mk none 4 false).forward [some probe10] (some (3, 3)) 0 0
        = some ([some (probe10.crop 0 0 3 3)], none) ∧
      (probe10.crop 0 0 3 3).h = 3 ∧ (probe10.crop 0 0 3 3).w = 3 ∧ ¬ (4 ∣ 3) :=
  ⟨rfl, rfl, rfl, by decide⟩

/- ----------------------------------------------------------------------
C5 and C9.  SwapCrops: swapped image and loss mask.
---------------------------------------------------------------------- -/

/-- The swapped image produced by SwapCrops.forward: a copy of the input
with region 1 overwritten by the crop at region 2 and then region 2
overwritten by the crop at region 1. -/
def swapImage {α : Type} [Zero α] (input : Tensor α) (cr_v cr_h v1 h1 v2 h2 : ℕ) : Tensor α :=
  (((zerosLike input).setRegion 0 0 input.h input.w input).setRegion v1 h1 cr_v cr_h
      (input.crop v2 h2 cr_v cr_h)).setRegion v2 h2 cr_v cr_h (input.crop v1 h1 cr_v cr_h)

/-- The loss mask produced by SwapCrops.forward: all-ones with the eight
Python slice assignments of 0 from the source, in source order. -/
def swapMask {α : Type} [Zero α] [One α] (input : Tensor α) (mw cr_v cr_h v1 h1 v2 h2 : ℕ) :
    Tensor α :=
  ((((((((onesLike input).setSlice (v1 : ℤ) ((v1 : ℤ) + cr_v) ((h1 : ℤ) - mw) ((h1 : ℤ) + mw) 0
    ).setSlice ((v1 : ℤ) - mw) ((v1 : ℤ) + mw) (h1 : ℤ) ((h1 : ℤ) + cr_h) 0
    ).setSlice (v1 : ℤ) ((v1 : ℤ) + cr_v) ((h1 : ℤ) + cr_h - mw) ((h1 : ℤ) + cr_h + mw) 0
    ).setSlice ((v1 : ℤ) + cr_v - mw) ((v1 : ℤ) + cr_v + mw) (h1 : ℤ) ((h1 : ℤ) + cr_h) 0
    ).setSlice (v2 : ℤ) ((v2 : ℤ) + cr_v) ((h2 : ℤ) - mw) ((h2 : ℤ) + mw) 0
    ).setSlice ((v2 : ℤ) - mw) ((v2 : ℤ) + mw) (h2 : ℤ) ((h2 : ℤ) + cr_h) 0
    ).setSlice (v2 : ℤ) ((v2 : ℤ) + cr_v) ((h2 : ℤ) + cr_h - mw) ((h2 : ℤ) + cr_h + mw) 0
    ).setSlice ((v2 : ℤ) + cr_v - mw) ((v2 : ℤ) + cr_v + mw) (h2 : ℤ) ((h2 : ℤ) + cr_h) 0

/-- A successful SwapCrops.forward call (legally sampled offsets) returns
exactly the swapped image and the eight-band mask. -/
lemma swapCrops_forward_eq {α : Type} [Zero α] [One α] (sc : SwapCrops) (input : Tensor α)
    (cr_v cr_h v1 h1 v2 h2 : ℕ)
    (g1 : v1 + cr_v < input.h) (g2 : h1 + cr_h < input.w)
    (g3 : v2 + cr_v < input.h) (g4 : h2 + cr_h < input.w) :
    sc.forward input cr_v cr_h v1 h1 v2 h2 =
      some (swapImage input cr_v cr_h v1 h1 v2 h2,
            swapMask input sc.mask_width cr_v cr_h v1 h1 v2 h2) := by
  have r1 : (RandomCrop.mk none 4 true).forward [some input] (some (cr_v, cr_h)) v1 h1
      = some ([some (input.crop v1 h1 cr_v cr_h)], some (v1, h1)) := by
    simp only [RandomCrop.forward, RandomCrop.effSize, Option.some_bind]
    rw [if_pos ⟨g1, g2⟩]
    rfl
  have r2 : (RandomCrop.mk none 4 true).forward [some input] (some (cr_v, cr_h)) v2 h2
      = some ([some (input.crop v2 h2 cr_v cr_h)], some (v2, h2)) := by
    simp only [RandomCrop.forward, RandomCrop.effSize, Option.some_bind]
    rw [if_pos ⟨g3, g4⟩]
    rfl
  simp only [SwapCrops.forward]
  rw [r1, r2]
  rfl

/-- Data of a slice assignment whose four endpoints are nonnegative, as a
plain integer-interval condition. -/
lemma setSlice_data_eq {α : Type} (t : Tensor α) (a b c0 d0 : ℤ) (v : α)
    (ha : 0 ≤ a) (hb : 0 ≤ b) (hc : 0 ≤ c0) (hd : 0 ≤ d0) (bi ci i j : ℕ) :
    (t.setSlice a b c0 d0 v).data bi ci i j =
      if a ≤ (i : ℤ) ∧ (i : ℤ) < b ∧ i < t.h ∧ c0 ≤ (j : ℤ) ∧ (j : ℤ) < d0 ∧ j < t.w then v
      else t.data bi ci i j := by
  simp only [Tensor.setSlice, pyIdx, if_neg (not_lt.mpr ha), if_neg (not_lt.mpr hb),
    if_neg (not_lt.mpr hc), if_neg (not_lt.mpr hd)]
  split_ifs with hL hR
  · rfl
  · exfalso; omega
  · exfalso; omega
  · rfl

/-- One axis-aligned mask band, with integer bounds, clipped to the image. -/
def bandZ (r0 r1 c0 c1 : ℤ) (H W i j : ℕ) : Prop :=
  r0 ≤ (i : ℤ) ∧ (i : ℤ) < r1 ∧ i < H ∧ c0 ≤ (j : ℤ) ∧ (j : ℤ) < c1 ∧ j < W

/-- The union of the eight boundary bands SwapCrops draws around the two
swapped regions (left, top, right, bottom of each region, each of width
2 * mask_width). -/
def swapMaskBands (mw cr_v cr_h v1 h1 v2 h2 H W : ℕ) (i j : ℕ) : Prop :=
  bandZ (v1 : ℤ) ((v1 : ℤ) + cr_v) ((h1 : ℤ) - mw) ((h1 : ℤ) + mw) H W i j ∨
  bandZ ((v1 : ℤ) - mw) ((v1 : ℤ) + mw) (h1 : ℤ) ((h1 : ℤ) + cr_h) H W i j ∨
  bandZ (v1 : ℤ) ((v1 : ℤ) + cr_v) ((h1 : ℤ) + cr_h - mw) ((h1 : ℤ) + cr_h + mw) H W i j ∨
  bandZ ((v1 : ℤ) + cr_v - mw) ((v1 : ℤ) + cr_v + mw) (h1 : ℤ) ((h1 : ℤ) + cr_h) H W i j ∨
  bandZ (v2 : ℤ) ((v2 : ℤ) + cr_v) ((h2 : ℤ) - mw) ((h2 : ℤ) + mw) H W i j ∨
  bandZ ((v2 : ℤ) - mw) ((v2 : ℤ) + mw) (h2 : ℤ) ((h2 : ℤ) + cr_h) H W i j ∨
  bandZ (v2 : ℤ) ((v2 : ℤ) + cr_v) ((h2 : ℤ) + cr_h - mw) ((h2 : ℤ) + cr_h + mw) H W i j ∨
  bandZ ((v2 : ℤ) + cr_v - mw) ((v2 : ℤ) + cr_v + mw) (h2 : ℤ) ((h2 : ℤ) + cr_h) H W i j

set_option maxHeartbeats 1000000 in
/-- C5 as amended: when both regions lie at least mask_width away from the
top and left image borders (so that no slice endpoint is negative and
Python wrap-around cannot occur), the loss mask returned by
SwapCrops.forward is 0 exactly on the eight axis-aligned boundary bands of
width 2 * mask_width drawn by the code (clipped at the image), and 1
everywhere else.  The mw x mw corner squares diagonal to each region corner
are not covered by the bands. -/
theorem swapCrops_mask_bands (sc : SwapCrops) (input : Tensor ℚ) (cr_v cr_h v1 h1 v2 h2 : ℕ)
    (g1 : v1 + cr_v < input.h) (g2 : h1 + cr_h < input.w)
    (g3 : v2 + cr_v < input.h) (g4 : h2 + cr_h < input.w)
    (b1 : sc.mask_width ≤ v1) (b2 : sc.mask_width ≤ h1)
    (b3 : sc.mask_width ≤ v2) (b4 : sc.mask_width ≤ h2) :
    ∃ out mask, sc.forward input cr_v cr_h v1 h1 v2 h2 = some (out, mask) ∧
      ∀ b c i j,
        (swapMaskBands sc.mask_width cr_v cr_h v1 h1 v2 h2 input.h input.w i j →
          mask.data b c i j = 0) ∧
        (¬ swapMaskBands sc.mask_width cr_v cr_h v1 h1 v2 h2 input.h input.w i j →
          mask.data b c i j = 1) := by
  refine ⟨_, _, swapCrops_forward_eq sc input cr_v cr_h v1 h1 v2 h2 g1 g2 g3 g4, ?_⟩
  intro b c i j
  unfold swapMask
  rw [setSlice_data_eq _ _ _ _ _ _ (by omega) (by omega) (by omega) (by omega),
    setSlice_data_eq _ _ _ _ _ _ (by omega) (by omega) (by omega) (by omega),
    setSlice_data_eq _ _ _ _ _ _ (by omega) (by omega) (by omega) (by omega),
    setSlice_data_eq _ _ _ _ _ _ (by omega) (by omega) (by omega) (by omega),
    setSlice_data_eq _ _ _ _ _ _ (by omega) (by omega) (by omega) (by omega),
    setSlice_data_eq _ _ _ _ _ _ (by omega) (by omega) (by omega) (by omega),
    setSlice_data_eq _ _ _ _ _ _ (by omega) (by omega) (by omega) (by omega),
    setSlice_data_eq _ _ _ _ _ _ (by omega) (by omega) (by omega) (by omega)]
  dsimp only [setSlice_h, setSlice_w, onesLike_h, onesLike_w]
  split_ifs with c1 c2 c3 c4 c5 c6 c7 c8 <;>
    first
      | exact ⟨fun _ => rfl,
          fun hnb => absurd (by simp only [swapMaskBands, bandZ]; omega) hnb⟩
      | exact ⟨fun hb => absurd hb (by simp only [swapMaskBands, bandZ]; omega),
          fun _ => rfl⟩

@[simp] lemma zerosLike_h {α : Type} [Zero α] (t : Tensor α) : (zerosLike t).h = t.h := rfl

@[simp] lemma zerosLike_w {α : Type} [Zero α] (t : Tensor α) : (zerosLike t).w = t.w := rfl

/-- A 1x1x30x30 probe tensor. -/
def swapProbe : Tensor ℚ := ⟨1, 1, 30, 30, fun _ _ _ _ => 1⟩

/-- Witness for C5 as amended: regions (5,8) and (18,8) of size 7x14 in a
30x30 image, mask width 5. -/
theorem swapCrops_mask_bands_witness :
    ∃ out mask, (SwapCrops.mk 1 20 5).forward swapProbe 7 14 5 8 18 8 = some (out, mask) ∧
      ∀ b c i j,
        (swapMaskBands 5 7 14 5 8 18 8 swapProbe.h swapProbe.w i j → mask.data b c i j = 0) ∧
        (¬ swapMaskBands 5 7 14 5 8 18 8 swapProbe.h swapProbe.w i j → mask.data b c i j = 1) :=
  swapCrops_mask_bands ⟨1, 20, 5⟩ swapProbe 7 14 5 8 18 8 (by decide) (by decide)
    (by decide) (by decide) (by decide) (by decide) (by decide) (by decide)

/-- C5 counterexample: region 1 legally sampled at the top border
(top-left (0,8), size 10x14, in a 30x30 image, mask width 5).  The claimed
band around the top edge contains the pixel (0,15), but the code computes
the slice rows v1-mw:v1+mw as -5:5, whose Python-normalised start is 25, so
the band is empty and the mask is 1 at (0,15). -/
theorem swapCrops_mask_border_gap :
    ((⟨1, 20, 5⟩ : SwapCrops).forward swapProbe 10 14 0 8 18 8).map
        (fun r => r.2.data 0 0 0 15) = some 1 ∧
      swapMaskBands 5 10 14 0 8 18 8 30 30 0 15 := by
  constructor
  · rfl
  · simp only [swapMaskBands, bandZ]
    omega

/-- Membership of a pixel in an axis-aligned region. -/
def inRegion (v h0 cv ch i j : ℕ) : Prop := v ≤ i ∧ i < v + cv ∧ h0 ≤ j ∧ j < h0 + ch

instance (v h0 cv ch i j : ℕ) : Decidable (inRegion v h0 cv ch i j) := by
  unfold inRegion
  infer_instance

/-- The set of pixel coordinates of an axis-aligned region. -/
def regionCells (v h0 cv ch : ℕ) : Finset (ℕ × ℕ) :=
  (Finset.range cv ×ˢ Finset.range ch).image fun p => (v + p.1, h0 + p.2)

/-- Sum of the values of one (batch, channel) plane over a set of pixels. -/
def cellSum {α : Type} [AddCommMonoid α] (t : Tensor α) (b c : ℕ) (s : Finset (ℕ × ℕ)) : α :=
  ∑ p ∈ s, t.data b c p.1 p.2

/-- Pointwise description of the swapped image when both regions are in
range: region 2 carries the old content of region 1, region 1 (outside
region 2) carries the old content of region 2, the rest is unchanged. -/
lemma swapImage_data (input : Tensor ℚ) (cr_v cr_h v1 h1 v2 h2 : ℕ)
    (g1 : v1 + cr_v ≤ input.h) (g2 : h1 + cr_h ≤ input.w)
    (g3 : v2 + cr_v ≤ input.h) (g4 : h2 + cr_h ≤ input.w)
    (b c i j : ℕ) (hi : i < input.h) (hj : j < input.w) :
    (swapImage input cr_v cr_h v1 h1 v2 h2).data b c i j =
      if inRegion v2 h2 cr_v cr_h i j then input.data b c (v1 + (i - v2)) (h1 + (j - h2))
      else if inRegion v1 h1 cr_v cr_h i j then input.data b c (v2 + (i - v1)) (h2 + (j - h1))
      else input.data b c i j := by
  have m1 : min (v2 + cr_v) input.h = v2 + cr_v := by omega
  have m2 : min (h2 + cr_h) input.w = h2 + cr_h := by omega
  have m3 : min (v1 + cr_v) input.h = v1 + cr_v := by omega
  have m4 : min (h1 + cr_h) input.w = h1 + cr_h := by omega
  have m5 : min v1 input.h = v1 := by omega
  have m6 : min h1 input.w = h1 := by omega
  have m7 : min v2 input.h = v2 := by omega
  have m8 : min h2 input.w = h2 := by omega
  simp only [swapImage, Tensor.setRegion, Tensor.crop, setRegion_h, setRegion_w,
    zerosLike_h, zerosLike_w, zerosLike, inRegion, Nat.zero_add, min_self, Nat.sub_zero]
  rw [m1, m2, m3, m4, m5, m6, m7, m8]
  split_ifs <;> first | rfl | (exfalso; omega)

/-- C9 as amended: when the two sampled regions are DISJOINT, the swapped
image agrees with the input outside the two regions, and the sum of pixel
values over the union of the two regions is preserved (the contents are
exchanged).  When the regions overlap, the second region overwrite clobbers
part of the first and content is duplicated/lost. -/
theorem swapCrops_swap_is_permutation (sc : SwapCrops) (input : Tensor ℚ)
    (cr_v cr_h v1 h1 v2 h2 : ℕ)
    (g1 : v1 + cr_v < input.h) (g2 : h1 + cr_h < input.w)
    (g3 : v2 + cr_v < input.h) (g4 : h2 + cr_h < input.w)
    (hdisj : v1 + cr_v ≤ v2 ∨ v2 + cr_v ≤ v1 ∨ h1 + cr_h ≤ h2 ∨ h2 + cr_h ≤ h1) :
    ∃ out mask, sc.forward input cr_v cr_h v1 h1 v2 h2 = some (out, mask) ∧
      (∀ b c i j, i < input.h → j < input.w →
        ¬ inRegion v1 h1 cr_v cr_h i j → ¬ inRegion v2 h2 cr_v cr_h i j →
        out.data b c i j = input.data b c i j) ∧
      (∀ b c, cellSum out b c (regionCells v1 h1 cr_v cr_h ∪ regionCells v2 h2 cr_v cr_h) =
        cellSum input b c (regionCells v1 h1 cr_v cr_h ∪ regionCells v2 h2 cr_v cr_h)) := by
  refine ⟨swapImage input cr_v cr_h v1 h1 v2 h2,
    swapMask input sc.mask_width cr_v cr_h v1 h1 v2 h2,
    swapCrops_forward_eq sc input cr_v cr_h v1 h1 v2 h2 g1 g2 g3 g4, ?_, ?_⟩
  · intro b c i j hi hj hn1 hn2
    rw [swapImage_data input cr_v cr_h v1 h1 v2 h2 (le_of_lt g1) (le_of_lt g2)
      (le_of_lt g3) (le_of_lt g4) b c i j hi hj]
    rw [if_neg hn2, if_neg hn1]
  · intro b c
    have hinj1 : ∀ p ∈ Finset.range cr_v ×ˢ Finset.range cr_h,
        ∀ q ∈ Finset.range cr_v ×ˢ Finset.range cr_h,
        (v1 + p.1, h1 + p.2) = (v1 + q.1, h1 + q.2) → p = q := by
      intro p _ q _ he
      rw [Prod.mk.injEq] at he
      exact Prod.ext (by omega) (by omega)
    have hinj2 : ∀ p ∈ Finset.range cr_v ×ˢ Finset.range cr_h,
        ∀ q ∈ Finset.range cr_v ×ˢ Finset.range cr_h,
        (v2 + p.1, h2 + p.2) = (v2 + q.1, h2 + q.2) → p = q := by
      intro p _ q _ he
      rw [Prod.mk.injEq] at he
      exact Prod.ext (by omega) (by omega)
    have hdisjf : Disjoint (regionCells v1 h1 cr_v cr_h) (regionCells v2 h2 cr_v cr_h) := by
      rw [Finset.disjoint_left]
      intro p hp1 hp2
      simp only [regionCells, Finset.mem_image, Finset.mem_product, Finset.mem_range] at hp1 hp2
      obtain ⟨q1, ⟨hq1a, hq1b⟩, hpe1⟩ := hp1
      obtain ⟨q2, ⟨hq2a, hq2b⟩, hpe2⟩ := hp2
      rw [← hpe2, Prod.mk.injEq] at hpe1
      omega
    rw [cellSum, cellSum, Finset.sum_union hdisjf, Finset.sum_union hdisjf]
    have hs1 : ∑ p ∈ regionCells v1 h1 cr_v cr_h,
        (swapImage input cr_v cr_h v1 h1 v2 h2).data b c p.1 p.2 =
        ∑ p ∈ regionCells v2 h2 cr_v cr_h, input.data b c p.1 p.2 := by
      rw [regionCells, regionCells, Finset.sum_image hinj1, Finset.sum_image hinj2]
      refine Finset.sum_congr rfl fun q hq => ?_
      simp only [Finset.mem_product, Finset.mem_range] at hq
      rw [swapImage_data input cr_v cr_h v1 h1 v2 h2 (le_of_lt g1) (le_of_lt g2)
        (le_of_lt g3) (le_of_lt g4) b c _ _ (by omega) (by omega)]
      rw [if_neg (by simp only [inRegion]; omega), if_pos (by simp only [inRegion]; omega)]
      simp only [show v1 + q.1 - v1 = q.1 from by omega, show h1 + q.2 - h1 = q.2 from by omega]
    have hs2 : ∑ p ∈ regionCells v2 h2 cr_v cr_h,
        (swapImage input cr_v cr_h v1 h1 v2 h2).data b c p.1 p.2 =
        ∑ p ∈ regionCells v1 h1 cr_v cr_h, input.data b c p.1 p.2 := by
      rw [regionCells, regionCells, Finset.sum_image hinj2, Finset.sum_image hinj1]
      refine Finset.sum_congr rfl fun q hq => ?_
      simp only [Finset.mem_product, Finset.mem_range] at hq
      rw [swapImage_data input cr_v cr_h v1 h1 v2 h2 (le_of_lt g1) (le_of_lt g2)
        (le_of_lt g3) (le_of_lt g4) b c _ _ (by omega) (by omega)]
      rw [if_pos (by simp only [inRegion]; omega)]
      simp only [show v2 + q.1 - v2 = q.1 from by omega, show h2 + q.2 - h2 = q.2 from by omega]
    rw [hs1, hs2]
    exact add_comm _ _

/-- Witness for C9 as amended: disjoint regions (5,8) and (18,8) of size
7x14 in a 30x30 image. -/
theorem swapCrops_swap_is_permutation_witness :
    ∃ out mask, (SwapCrops.mk 1 20 5).forward swapProbe 7 14 5 8 18 8 = some (out, mask) ∧
      (∀ b c i j, i < swapProbe.h → j < swapProbe.w →
        ¬ inRegion 5 8 7 14 i j → ¬ inRegion 18 8 7 14 i j →
        out.data b c i j = swapProbe.data b c i j) ∧
      (∀ b c, cellSum out b c (regionCells 5 8 7 14 ∪ regionCells 18 8 7 14) =
        cellSum swapProbe b c (regionCells 5 8 7 14 ∪ regionCells 18 8 7 14)) :=
  swapCrops_swap_is_permutation ⟨1, 20, 5⟩ swapProbe 7 14 5 8 18 8 (by decide) (by decide)
    (by decide) (by decide) (Or.inl (by decide))

/-- A 1x1x2x4 probe with pixel value equal to the column index. -/
def swapProbe9 : Tensor ℚ := ⟨1, 1, 2, 4, fun _ _ _ j => (j : ℚ)⟩

/-- C9 counterexample: legally sampled OVERLAPPING regions (0,0) and (0,1)
of size 1x2 in a 1x1x2x4 image with row [0,1,2,3]: after the swap the union
of the two regions sums to 2, while it summed to 3 before, so the swapped
content is not a permutation of the original over the union. -/
theorem swapCrops_overlap_sum_not_preserved :
    ((⟨1, 3, 5⟩ : SwapCrops).forward swapProbe9 1 2 0 0 0 1).map
        (fun r => cellSum r.1 0 0 (regionCells 0 0 1 2 ∪ regionCells 0 1 1 2)) = some 2 ∧
      cellSum swapProbe9 0 0 (regionCells 0 0 1 2 ∪ regionCells 0 1 1 2) = 3 := by
  have hu : (regionCells 0 0 1 2 ∪ regionCells 0 1 1 2)
      = insert ((0 : ℕ), (0 : ℕ)) (insert (0, 1) {(0, 2)}) := by decide
  constructor
  · rw [swapCrops_forward_eq _ _ _ _ _ _ _ _ (by decide) (by decide) (by decide) (by decide),
      Option.map_some']
    rw [Option.some.injEq, cellSum, hu]
    rw [Finset.sum_insert (by decide), Finset.sum_insert (by decide), Finset.sum_singleton]
    norm_num [swapImage, Tensor.setRegion, Tensor.crop, zerosLike, swapProbe9]
  · rw [cellSum, hu]
    rw [Finset.sum_insert (by decide), Finset.sum_insert (by decide), Finset.sum_singleton]
    norm_num [swapProbe9]

/- ----------------------------------------------------------------------
Shape lemmas for the generator layers.
---------------------------------------------------------------------- -/

@[simp] lemma batchNorm2d_n (p : ConvBN) (x : Tensor ℝ) : (batchNorm2d p x).n = x.n := rfl

@[simp] lemma batchNorm2d_c (p : ConvBN) (x : Tensor ℝ) : (batchNorm2d p x).c = x.c := rfl

@[simp] lemma batchNorm2d_h (p : ConvBN) (x : Tensor ℝ) : (batchNorm2d p x).h = x.h := rfl

@[simp] lemma batchNorm2d_w (p : ConvBN) (x : Tensor ℝ) : (batchNorm2d p x).w = x.w := rfl

@[simp] lemma leakyReLU_n (s : ℝ) (x : Tensor ℝ) : (leakyReLU s x).n = x.n := rfl

@[simp] lemma leakyReLU_c (s : ℝ) (x : Tensor ℝ) : (leakyReLU s x).c = x.c := rfl

@[simp] lemma leakyReLU_h (s : ℝ) (x : Tensor ℝ) : (leakyReLU s x).h = x.h := rfl

@[simp] lemma leakyReLU_w (s : ℝ) (x : Tensor ℝ) : (leakyReLU s x).w = x.w := rfl

@[simp] lemma interpBilinear_n {α : Type} [DivisionRing α] (oh ow : ℕ) (x : Tensor α) :
    (interpBilinear oh ow x).n = x.n := rfl

@[simp] lemma interpBilinear_c {α : Type} [DivisionRing α] (oh ow : ℕ) (x : Tensor α) :
    (interpBilinear oh ow x).c = x.c := rfl

@[simp] lemma interpBilinear_h {α : Type} [DivisionRing α] (oh ow : ℕ) (x : Tensor α) :
    (interpBilinear oh ow x).h = oh := rfl

@[simp] lemma interpBilinear_w {α : Type} [DivisionRing α] (oh ow : ℕ) (x : Tensor α) :
    (interpBilinear oh ow x).w = ow := rfl

@[simp] lemma gridSampleBorder_n (x : Tensor ℝ) (oh ow : ℕ) (g : ℕ → ℕ → ℕ → ℚ × ℚ) :
    (gridSampleBorder x oh ow g).n = x.n := rfl

@[simp] lemma gridSampleBorder_c (x : Tensor ℝ) (oh ow : ℕ) (g : ℕ → ℕ → ℕ → ℚ × ℚ) :
    (gridSampleBorder x oh ow g).c = x.c := rfl

@[simp] lemma gridSampleBorder_h (x : Tensor ℝ) (oh ow : ℕ) (g : ℕ → ℕ → ℕ → ℚ × ℚ) :
    (gridSampleBorder x oh ow g).h = oh := rfl

@[simp] lemma gridSampleBorder_w (x : Tensor ℝ) (oh ow : ℕ) (g : ℕ → ℕ → ℕ → ℚ × ℚ) :
    (gridSampleBorder x oh ow g).w = ow := rfl

/-- Nearest-neighbour interpolation at scale factor 2 exactly doubles the
spatial dims. -/
lemma interpNearest_two_shape (x : Tensor ℝ) :
    (interpNearest 2 x).n = x.n ∧ (interpNearest 2 x).c = x.c ∧
    (interpNearest 2 x).h = 2 * x.h ∧ (interpNearest 2 x).w = 2 * x.w := by
  refine ⟨rfl, rfl, ?_, ?_⟩
  · show Int.toNat ⌊(x.h : ℚ) * 2⌋ = 2 * x.h
    rw [show ((x.h : ℚ) * 2) = ((2 * x.h : ℕ) : ℚ) by push_cast; ring, Int.floor_natCast]
    exact Int.toNat_natCast _
  · show Int.toNat ⌊(x.w : ℚ) * 2⌋ = 2 * x.w
    rw [show ((x.w : ℚ) * 2) = ((2 * x.w : ℕ) : ℚ) by push_cast; ring, Int.floor_natCast]
    exact Int.toNat_natCast _

/-- A reflection pad with all pads strictly below the spatial dims
succeeds and grows the dims accordingly. -/
lemma reflectPad2d_shape (pl pr pt pb : ℕ) (x : Tensor ℝ)
    (hl : pl < x.w) (hr : pr < x.w) (ht : pt < x.h) (hb : pb < x.h) :
    ∃ y, reflectPad2d pl pr pt pb x = some y ∧
      y.n = x.n ∧ y.c = x.c ∧ y.h = x.h + pt + pb ∧ y.w = x.w + pl + pr := by
  rw [reflectPad2d, if_pos ⟨hl, hr, ht, hb⟩]
  exact ⟨_, rfl, rfl, rfl, rfl, rfl⟩

/-- A convolution on a matching input succeeds and has the usual output
size. -/
lemma conv2d_shape (inC outC k : ℕ) (p : ConvBN) (x : Tensor ℝ)
    (hc : x.c = inC) (hh : k ≤ x.h) (hw : k ≤ x.w) (hk : 1 ≤ k) :
    ∃ y, conv2d inC outC k p x = some y ∧
      y.n = x.n ∧ y.c = outC ∧ y.h = x.h + 1 - k ∧ y.w = x.w + 1 - k := by
  rw [conv2d, if_pos ⟨hc, hh, hw, hk⟩]
  exact ⟨_, rfl, rfl, rfl, rfl, rfl⟩

/-- A RescaleBlock conv stage preserves the spatial dims and moves the
channels from inC to outC. -/
lemma rescaleConv_shape (L : RBLayer) (x : Tensor ℝ)
    (hc : x.c = L.inC) (hh : 2 ≤ x.h) (hw : 2 ≤ x.w) :
    ∃ y, rescaleConvForward L x = some y ∧
      y.n = x.n ∧ y.c = L.outC ∧ y.h = x.h ∧ y.w = x.w := by
  obtain ⟨y1, hy1, hn1, hc1, hh1, hw1⟩ :=
    reflectPad2d_shape 1 1 1 1 x (by omega) (by omega) (by omega) (by omega)
  obtain ⟨y2, hy2, hn2, hc2, hh2, hw2⟩ :=
    conv2d_shape L.inC L.outC 3 L.p y1 (by rw [hc1, hc]) (by omega) (by omega) (by omega)
  refine ⟨leakyReLU 0.2 (batchNorm2d L.p y2), ?_, by simp [hn2, hn1], by simp [hc2],
    by simp [hh2]; omega, by simp [hw2]; omega⟩
  rw [rescaleConvForward, hy1, Option.some_bind, hy2, Option.map_some']

/-- Two co-shaped tensors add successfully. -/
lemma addT_shape (a b : Tensor ℝ) (hn : a.n = b.n) (hc : a.c = b.c) (hh : a.h = b.h)
    (hw : a.w = b.w) :
    ∃ y, addT a b = some y ∧ y.n = a.n ∧ y.c = a.c ∧ y.h = a.h ∧ y.w = a.w := by
  rw [addT, if_pos ⟨hn, hc, hh, hw⟩]
  exact ⟨_, rfl, rfl, rfl, rfl, rfl⟩

/-- Max-pooling a map with both spatial dims at least 2 succeeds and halves
them (floor). -/
lemma maxPool2_shape (x : Tensor ℝ) (hh : 2 ≤ x.h) (hw : 2 ≤ x.w) :
    ∃ y, maxPool2 x = some y ∧ y.n = x.n ∧ y.c = x.c ∧ y.h = x.h / 2 ∧ y.w = x.w / 2 := by
  rw [maxPool2, if_pos ⟨hh, hw⟩]
  exact ⟨_, rfl, rfl, rfl, rfl, rfl⟩

/-- Stage i of a downscale RescaleBlock (scale 0.5): channels
base * 2^(i+0) -> base * 2^(i+1), matching in_channel_power = 0 and
out_channel_power = 1 from the source. -/
def downLayer (base : ℕ) (params : ℕ → ConvBN) (i : ℕ) : RBLayer :=
  RBLayer.mk (base * 2 ^ (i + 0)) (base * 2 ^ (i + 1)) (params i)

/-- Stage i of an upscale RescaleBlock (scale 2.0): channels
base * 2^(i+1) -> base * 2^(i+0). -/
def upLayer (base : ℕ) (params : ℕ → ConvBN) (i : ℕ) : RBLayer :=
  RBLayer.mk (base * 2 ^ (i + 1)) (base * 2 ^ (i + 0)) (params i)

lemma mkRescaleBlock_down_scale (n base : ℕ) (params : ℕ → ConvBN) :
    (mkRescaleBlock n (1 / 2) base params).scale = 1 / 2 := rfl

lemma mkRescaleBlock_up_scale (n base : ℕ) (params : ℕ → ConvBN) :
    (mkRescaleBlock n 2 base params).scale = 2 := rfl

lemma mkRescaleBlock_down_layers (n base : ℕ) (params : ℕ → ConvBN) :
    (mkRescaleBlock n (1 / 2) base params).layers
      = (List.range n).map (downLayer base params) := by
  simp only [mkRescaleBlock, if_neg (show ¬ ((1 : ℚ) < 1 / 2) by norm_num),
    if_pos (show (1 : ℚ) / 2 < 1 by norm_num)]
  rfl

/-- The list [n-1, n-2, ..., 1, 0]. -/
def revRange : ℕ → List ℕ
  | 0 => []
  | n + 1 => n :: revRange n

lemma range_reverse_eq_revRange (n : ℕ) : (List.range n).reverse = revRange n := by
  induction n with
  | zero => rfl
  | succ n ih => rw [List.range_succ, List.reverse_append, ih]; rfl

lemma mkRescaleBlock_up_layers (n base : ℕ) (params : ℕ → ConvBN) :
    (mkRescaleBlock n 2 base params).layers = (revRange n).map (upLayer base params) := by
  simp only [mkRescaleBlock, if_pos (show (1 : ℚ) < 2 by norm_num),
    if_neg (show ¬ ((2 : ℚ) < 1) by norm_num)]
  rw [← range_reverse_eq_revRange, List.map_reverse]
  rfl

lemma two_le_pow_succ_mul (m q : ℕ) (hq : 1 ≤ q) : 2 ≤ 2 ^ (m + 1) * q := by
  calc 2 = 2 ^ 1 * 1 := by norm_num
  _ ≤ 2 ^ (m + 1) * q := Nat.mul_le_mul (Nat.pow_le_pow_right (by norm_num) (by omega)) hq

lemma pow_succ_mul_div_two (m q : ℕ) : 2 ^ (m + 1) * q / 2 = 2 ^ m * q := by
  rw [pow_succ, mul_comm (2 ^ m) 2, mul_assoc]
  exact Nat.mul_div_cancel_left _ (by norm_num)

/-- The downscale loop: starting from stage i with channels base * 2^i and
spatial dims 2^m * q by 2^m * qw (q, qw at least 1), the remaining m stages
succeed, end with channels base * 2^(i+m) and dims q by qw, and append one
collected scale per stage (when collecting), the t-th having channels
base * 2^(i+t+1) and dims 2^(m-t-1) * q by 2^(m-t-1) * qw. -/
lemma down_go (base : ℕ) (params : ℕ → ConvBN) (retAll : Bool) :
    ∀ (m i : ℕ) (fm : Tensor ℝ) (acc : List (Tensor ℝ)) (q qw : ℕ),
      fm.c = base * 2 ^ i → fm.h = 2 ^ m * q → fm.w = 2 ^ m * qw → 1 ≤ q → 1 ≤ qw →
      ∃ out accNew,
        rescaleGo (1 / 2) none retAll false i
            ((List.range' i m).map (downLayer base params)) fm acc
          = some (out, acc ++ accNew) ∧
        out.n = fm.n ∧ out.c = base * 2 ^ (i + m) ∧ out.h = q ∧ out.w = qw ∧
        accNew.length = (if retAll then m else 0) ∧
        (∀ t (ht : t < accNew.length),
          (accNew.get ⟨t, ht⟩).n = fm.n ∧ (accNew.get ⟨t, ht⟩).c = base * 2 ^ (i + t + 1) ∧
          (accNew.get ⟨t, ht⟩).h = 2 ^ (m - t - 1) * q ∧
          (accNew.get ⟨t, ht⟩).w = 2 ^ (m - t - 1) * qw) := by
  intro m
  induction m with
  | zero =>
    intro i fm acc q qw hc hh hw hq hqw
    refine ⟨fm, [], ?_, rfl, by simpa using hc, by simpa using hh, by simpa using hw,
      by simp, ?_⟩
    · simp [rescaleGo]
    · intro t ht
      simp at ht
  | succ m ih =>
    intro i fm acc q qw hc hh hw hq hqw
    have hlist : (List.range' i (m + 1)).map (downLayer base params)
        = downLayer base params i :: (List.range' (i + 1) m).map (downLayer base params) := by
      rw [List.range'_succ]
      rfl
    obtain ⟨fm2, hfm2, hn2, hc2, hh2, hw2⟩ := rescaleConv_shape (downLayer base params i) fm
      (by simpa [downLayer] using hc)
      (by rw [hh]; exact two_le_pow_succ_mul m q hq)
      (by rw [hw]; exact two_le_pow_succ_mul m qw hqw)
    obtain ⟨fm4, hfm4, hn4, hc4, hh4, hw4⟩ := maxPool2_shape fm2
      (by rw [hh2, hh]; exact two_le_pow_succ_mul m q hq)
      (by rw [hw2, hw]; exact two_le_pow_succ_mul m qw hqw)
    have hc4' : fm4.c = base * 2 ^ (i + 1) := by rw [hc4, hc2]; rfl
    have hh4' : fm4.h = 2 ^ m * q := by rw [hh4, hh2, hh]; exact pow_succ_mul_div_two m q
    have hw4' : fm4.w = 2 ^ m * qw := by rw [hw4, hw2, hw]; exact pow_succ_mul_div_two m qw
    obtain ⟨out, accNew', hgo, hon, hoc, hoh, how, hlen, helts⟩ :=
      ih (i + 1) fm4 (if retAll then acc ++ [fm4] else acc) q qw hc4' hh4' hw4' hq hqw
    cases retAll with
    | false =>
      simp only [Bool.false_eq_true, if_false] at hgo hlen
      refine ⟨out, accNew', ?_, by rw [hon, hn4, hn2],
        by rw [hoc, show i + 1 + m = i + (m + 1) from by omega], hoh, how,
        by simp [hlen], ?_⟩
      · rw [hlist]
        simp only [rescaleGo]
        rw [if_neg (show ¬ ((1 : ℚ) < 1 / 2) by norm_num), hfm2, Option.some_bind,
          if_neg (show ¬ (false = true) by simp), Option.some_bind,
          if_pos (show (1 : ℚ) / 2 < 1 by norm_num), hfm4, Option.some_bind]
        simp only [Bool.false_eq_true, if_false]
        exact hgo
      · intro t ht
        rw [hlen] at ht
        exact absurd ht (by omega)
    | true =>
      simp only [if_pos rfl] at hgo hlen
      refine ⟨out, fm4 :: accNew', ?_, by rw [hon, hn4, hn2],
        by rw [hoc, show i + 1 + m = i + (m + 1) from by omega], hoh, how,
        by simp [hlen], ?_⟩
      · rw [hlist]
        simp only [rescaleGo]
        rw [if_neg (show ¬ ((1 : ℚ) < 1 / 2) by norm_num), hfm2, Option.some_bind,
          if_neg (show ¬ (false = true) by simp), Option.some_bind,
          if_pos (show (1 : ℚ) / 2 < 1 by norm_num), hfm4, Option.some_bind]
        rw [hgo]
        simp
      · intro t ht
        match t, ht with
        | 0, ht =>
          refine ⟨by simp [List.get, hn4, hn2], ?_, ?_, ?_⟩
          · simp only [List.get]
            rw [hc4']
          · simp only [List.get]
            rw [hh4']
            congr 1
          · simp only [List.get]
            rw [hw4']
            congr 1
        | t + 1, ht =>
          have ht' : t < accNew'.length := by
            simp at ht
            omega
          obtain ⟨he1, he2, he3, he4⟩ := helts t ht'
          refine ⟨?_, ?_, ?_, ?_⟩
          · show (accNew'.get ⟨t, ht'⟩).n = fm.n
            rw [he1, hn4, hn2]
          · show (accNew'.get ⟨t, ht'⟩).c = base * 2 ^ (i + (t + 1) + 1)
            rw [he2, show i + 1 + t + 1 = i + (t + 1) + 1 from by omega]
          · show (accNew'.get ⟨t, ht'⟩).h = 2 ^ (m + 1 - (t + 1) - 1) * q
            rw [he3, show m - t - 1 = m + 1 - (t + 1) - 1 from by omega]
          · show (accNew'.get ⟨t, ht'⟩).w = 2 ^ (m + 1 - (t + 1) - 1) * qw
            rw [he4, show m - t - 1 = m + 1 - (t + 1) - 1 from by omega]

/-- The upscale loop with skip fusion: starting with r stages remaining,
channels base * 2^r and spatial dims 2^(N-r) * q by 2^(N-r) * qw, against a
pyramid of length N+1 whose element t has channels base * 2^t and dims
2^(N-t) * q by 2^(N-t) * qw, the loop succeeds and ends with channels base
and dims 2^N * q by 2^N * qw. -/
lemma up_go_skip (base : ℕ) (params : ℕ → ConvBN) (N n0 q qw : ℕ) (ps : List (Tensor ℝ))
    (hq : 1 ≤ q) (hqw : 1 ≤ qw) (hlen : ps.length = N + 1)
    (hshapes : ∀ t (ht : t < ps.length),
      (ps.get ⟨t, ht⟩).n = n0 ∧ (ps.get ⟨t, ht⟩).c = base * 2 ^ t ∧
      (ps.get ⟨t, ht⟩).h = 2 ^ (N - t) * q ∧ (ps.get ⟨t, ht⟩).w = 2 ^ (N - t) * qw) :
    ∀ (r : ℕ) (fm : Tensor ℝ) (acc : List (Tensor ℝ)), r ≤ N →
      fm.n = n0 → fm.c = base * 2 ^ r → fm.h = 2 ^ (N - r) * q → fm.w = 2 ^ (N - r) * qw →
      ∃ out, rescaleGo 2 (some ps) false true (N - r)
          ((revRange r).map (upLayer base params)) fm acc = some (out, acc) ∧
        out.n = n0 ∧ out.c = base ∧ out.h = 2 ^ N * q ∧ out.w = 2 ^ N * qw := by
  intro r
  induction r with
  | zero =>
    intro fm acc _ hn hc hh hw
    refine ⟨fm, by simp [revRange, rescaleGo], hn, by simpa using hc, by simpa using hh,
      by simpa using hw⟩
  | succ r ih =>
    intro fm acc hr hn hc hh hw
    have hNr : N - r = (N - (r + 1)) + 1 := by omega
    have hi1 : (interpNearest 2 fm).h = 2 ^ (N - r) * q := by
      rw [(interpNearest_two_shape fm).2.2.1, hh, hNr, pow_succ']
      ring
    have hi2 : (interpNearest 2 fm).w = 2 ^ (N - r) * qw := by
      rw [(interpNearest_two_shape fm).2.2.2, hw, hNr, pow_succ']
      ring
    obtain ⟨fm2, hfm2, hn2, hc2, hh2, hw2⟩ :=
      rescaleConv_shape (upLayer base params r) (interpNearest 2 fm)
        (by rw [(interpNearest_two_shape fm).2.1, hc]; rfl)
        (by rw [hi1, hNr]; exact two_le_pow_succ_mul _ q hq)
        (by rw [hi2, hNr]; exact two_le_pow_succ_mul _ qw hqw)
    have hr' : r < ps.length := by omega
    obtain ⟨hp1, hp2, hp3, hp4⟩ := hshapes r hr'
    obtain ⟨fm3, hfm3, hn3, hc3, hh3, hw3⟩ := addT_shape fm2 (ps.get ⟨r, hr'⟩)
      (by rw [hn2, (interpNearest_two_shape fm).1, hn, hp1])
      (by rw [hc2, hp2]; show base * 2 ^ (r + 0) = base * 2 ^ r; norm_num)
      (by rw [hh2, hi1, hp3]) (by rw [hw2, hi2, hp4])
    obtain ⟨out, hgo, hon, hoc, hoh, how⟩ := ih fm3 acc (by omega)
      (by rw [hn3, hn2, (interpNearest_two_shape fm).1, hn])
      (by rw [hc3, hc2]; show base * 2 ^ (r + 0) = base * 2 ^ r; norm_num)
      (by rw [hh3, hh2, hi1]) (by rw [hw3, hw2, hi2])
    refine ⟨out, ?_, hon, hoc, hoh, how⟩
    simp only [revRange, List.map_cons, rescaleGo]
    rw [if_pos (show (1 : ℚ) < 2 by norm_num), hfm2, Option.some_bind,
      if_pos trivial, Option.some_bind,
      if_pos (show N - (r + 1) + 2 ≤ ps.length by omega),
      show ps.length - (N - (r + 1) + 2) = r from by omega,
      List.get?_eq_get hr', Option.some_bind, hfm3, Option.some_bind,
      if_neg (show ¬ ((2 : ℚ) < 1) by norm_num)]
    simp only [Bool.false_eq_true, if_false]
    rw [Option.some_bind, show N - (r + 1) + 1 = N - r from by omega, hgo]

/-- The upscale loop without skip fusion: r stages double the spatial dims
r times and bring the channels down to base, whatever the pyramid argument
and the stage counter. -/
lemma up_go_noskip (base : ℕ) (params : ℕ → ConvBN) :
    ∀ (r i : ℕ) (fm : Tensor ℝ) (acc : List (Tensor ℝ)) (pyrO : Option (List (Tensor ℝ))),
      fm.c = base * 2 ^ r → 1 ≤ fm.h → 1 ≤ fm.w →
      ∃ out, rescaleGo 2 pyrO false false i
          ((revRange r).map (upLayer base params)) fm acc = some (out, acc) ∧
        out.n = fm.n ∧ out.c = base ∧ out.h = 2 ^ r * fm.h ∧ out.w = 2 ^ r * fm.w := by
  intro r
  induction r with
  | zero =>
    intro i fm acc pyrO hc hh hw
    refine ⟨fm, by simp [revRange, rescaleGo], rfl, by simpa using hc, by simp, by simp⟩
  | succ r ih =>
    intro i fm acc pyrO hc hh hw
    obtain ⟨fm2, hfm2, hn2, hc2, hh2, hw2⟩ :=
      rescaleConv_shape (upLayer base params r) (interpNearest 2 fm)
        (by rw [(interpNearest_two_shape fm).2.1, hc]; rfl)
        (by rw [(interpNearest_two_shape fm).2.2.1]; omega)
        (by rw [(interpNearest_two_shape fm).2.2.2]; omega)
    obtain ⟨out, hgo, hon, hoc, hoh, how⟩ := ih (i + 1) fm2 acc pyrO
      (by rw [hc2]; show base * 2 ^ (r + 0) = base * 2 ^ r; norm_num)
      (by rw [hh2, (interpNearest_two_shape fm).2.2.1]; omega)
      (by rw [hw2, (interpNearest_two_shape fm).2.2.2]; omega)
    refine ⟨out, ?_, by rw [hon, hn2, (interpNearest_two_shape fm).1], hoc, ?_, ?_⟩
    · simp only [revRange, List.map_cons, rescaleGo]
      rw [if_pos (show (1 : ℚ) < 2 by norm_num), hfm2, Option.some_bind,
        if_neg (show ¬ (false = true) by simp), Option.some_bind,
        if_neg (show ¬ ((2 : ℚ) < 1) by norm_num)]
      simp only [Option.some_bind, Bool.false_eq_true, if_false]
      rw [hgo]
    · rw [hoh, hh2, (interpNearest_two_shape fm).2.2.1, pow_succ']
      ring
    · rw [how, hw2, (interpNearest_two_shape fm).2.2.2, pow_succ']
      ring

/-- A res-block on a matching input succeeds and preserves the shape. -/
lemma resnet_forward_shape (rb : ResnetBlock) (x : Tensor ℝ)
    (hc : x.c = rb.dim) (hh : 2 ≤ x.h) (hw : 2 ≤ x.w) :
    ∃ y, rb.forward x = some y ∧ y.n = x.n ∧ y.c = x.c ∧ y.h = x.h ∧ y.w = x.w := by
  obtain ⟨y1, hy1, hn1, hc1, hh1, hw1⟩ := conv2d_shape rb.dim (rb.dim / 4) 1 rb.p1 x
    hc (by omega) (by omega) (by omega)
  obtain ⟨y2, hy2, hn2, hc2, hh2, hw2⟩ := reflectPad2d_shape 1 1 1 1
    (leakyReLU 0.2 (batchNorm2d rb.p1 y1)) (by simp [hw1]; omega) (by simp [hw1]; omega)
    (by simp [hh1]; omega) (by simp [hh1]; omega)
  obtain ⟨y3, hy3, hn3, hc3, hh3, hw3⟩ := conv2d_shape (rb.dim / 4) (rb.dim / 4) 3 rb.p2 y2
    (by rw [hc2]; simp [hc1]) (by simp [hh2]; omega) (by simp [hw2]; omega) (by omega)
  obtain ⟨y4, hy4, hn4, hc4, hh4, hw4⟩ := conv2d_shape (rb.dim / 4) rb.dim 1 rb.p3
    (leakyReLU 0.2 (batchNorm2d rb.p2 y3)) (by simp [hc3]) (by simp [hh3, hh2, hh1] <;> omega)
    (by simp [hw3, hw2, hw1] <;> omega) (by omega)
  obtain ⟨y5, hy5, hn5, hc5, hh5, hw5⟩ := addT_shape x (batchNorm2d rb.p3 y4)
    (by simp [hn4, hn3, hn2, hn1])
    (by simp [hc4, hc])
    (by simp [hh4, hh3, hh2, hh1] <;> omega)
    (by simp [hw4, hw3, hw2, hw1] <;> omega)
  refine ⟨y5, ?_, hn5, hc5, hh5, hw5⟩
  rw [ResnetBlock.forward, hy1, Option.some_bind, hy2, Option.some_bind, hy3,
    Option.some_bind, hy4, Option.some_bind, hy5]

/-- A sequence of res-blocks of a common width preserves the shape. -/
lemma bottleneck_shape (d : ℕ) :
    ∀ (bs : List ResnetBlock) (x : Tensor ℝ), (∀ rb ∈ bs, rb.dim = d) →
      x.c = d → 2 ≤ x.h → 2 ≤ x.w →
      ∃ y, bottleneckForward bs x = some y ∧ y.n = x.n ∧ y.c = x.c ∧ y.h = x.h ∧ y.w = x.w := by
  intro bs
  induction bs with
  | nil =>
    intro x _ _ _ _
    exact ⟨x, rfl, rfl, rfl, rfl, rfl⟩
  | cons rb rest ih =>
    intro x hdims hc hh hw
    obtain ⟨y, hy, hn1, hc1, hh1, hw1⟩ := resnet_forward_shape rb x
      (by rw [hc, hdims rb (by simp)]) hh hw
    obtain ⟨z, hz, hn2, hc2, hh2, hw2⟩ := ih y (fun r hr => hdims r (by simp [hr]))
      (by rw [hc1, hc]) (by omega) (by omega)
    refine ⟨z, ?_, by rw [hn2, hn1], by rw [hc2, hc1], by rw [hh2, hh1], by rw [hw2, hw1]⟩
    rw [bottleneckForward, hy, Option.some_bind, hz]

/-- The entry block on a 3-channel input of spatial dims at least 4
succeeds, keeps the spatial dims and lifts the channels to base. -/
lemma entry_shape (base : ℕ) (p : ConvBN) (x : Tensor ℝ)
    (hc : x.c = 3) (hh : 4 ≤ x.h) (hw : 4 ≤ x.w) :
    ∃ y, entryBlockForward base p x = some y ∧
      y.n = x.n ∧ y.c = base ∧ y.h = x.h ∧ y.w = x.w := by
  obtain ⟨y1, hy1, hn1, hc1, hh1, hw1⟩ := reflectPad2d_shape 3 3 3 3 x
    (by omega) (by omega) (by omega) (by omega)
  obtain ⟨y2, hy2, hn2, hc2, hh2, hw2⟩ := conv2d_shape 3 base 7 p y1
    (by rw [hc1, hc]) (by omega) (by omega) (by omega)
  refine ⟨leakyReLU 0.2 (batchNorm2d p y2), ?_, by simp [hn2, hn1], by simp [hc2],
    by simp [hh2, hh1] <;> omega, by simp [hw2, hw1] <;> omega⟩
  rw [entryBlockForward, hy1, Option.some_bind, hy2, Option.map_some']

/-- Tanh maps every real into [-1, 1]. -/
lemma tanh_bounds (x : ℝ) : -1 ≤ Real.tanh x ∧ Real.tanh x ≤ 1 := by
  have hc := Real.cosh_pos x
  have hs := Real.sinh_eq x
  have hco := Real.cosh_eq x
  rw [Real.tanh_eq_sinh_div_cosh]
  constructor
  · rw [le_div_iff hc]
    nlinarith [Real.exp_pos x]
  · rw [div_le_one hc]
    nlinarith [Real.exp_pos (-x)]

/-- The final block on a base-channel input of spatial dims at least 4
succeeds, keeps the spatial dims, projects to 3 channels, and bounds every
value in [-1, 1] via the final Tanh. -/
lemma final_shape_range (base : ℕ) (p : ConvBN) (x : Tensor ℝ)
    (hc : x.c = base) (hh : 4 ≤ x.h) (hw : 4 ≤ x.w) :
    ∃ y, finalBlockForward base p x = some y ∧
      y.n = x.n ∧ y.c = 3 ∧ y.h = x.h ∧ y.w = x.w ∧
      ∀ b c i j, -1 ≤ y.data b c i j ∧ y.data b c i j ≤ 1 := by
  obtain ⟨y1, hy1, hn1, hc1, hh1, hw1⟩ := reflectPad2d_shape 3 3 3 3 x
    (by omega) (by omega) (by omega) (by omega)
  obtain ⟨y2, hy2, hn2, hc2, hh2, hw2⟩ := conv2d_shape base 3 7 p y1
    (by rw [hc1, hc]) (by omega) (by omega) (by omega)
  refine ⟨tanhT y2, ?_, by simp [tanhT, hn2, hn1], by simp [tanhT, hc2],
    by simp [tanhT, hh2, hh1] <;> omega, by simp [tanhT, hw2, hw1] <;> omega,
    fun b c i j => tanh_bounds _⟩
  rw [finalBlockForward, hy1, Option.some_bind, hy2, Option.map_some']

/-- The downscale RescaleBlock.forward with return_all_scales: succeeds,
ends at channels base * 2^N and dims q by qw, and returns the full pyramid
(input first), whose element t has channels base * 2^t and dims
2^(N-t) * q by 2^(N-t) * qw. -/
lemma down_forward_true (base : ℕ) (params : ℕ → ConvBN) (N : ℕ) (x : Tensor ℝ) (q qw : ℕ)
    (hc : x.c = base) (hh : x.h = 2 ^ N * q) (hw : x.w = 2 ^ N * qw)
    (hq : 1 ≤ q) (hqw : 1 ≤ qw) :
    ∃ out scales, (mkRescaleBlock N (1 / 2) base params).forward x none true false
        = some (out, some scales) ∧
      out.n = x.n ∧ out.c = base * 2 ^ N ∧ out.h = q ∧ out.w = qw ∧
      scales.length = N + 1 ∧
      (∀ t (ht : t < scales.length),
        (scales.get ⟨t, ht⟩).n = x.n ∧ (scales.get ⟨t, ht⟩).c = base * 2 ^ t ∧
        (scales.get ⟨t, ht⟩).h = 2 ^ (N - t) * q ∧
        (scales.get ⟨t, ht⟩).w = 2 ^ (N - t) * qw) := by
  obtain ⟨out, accNew, hgo, hon, hoc, hoh, how, hlen, helts⟩ :=
    down_go base params true N 0 x [x] q qw (by simp [hc]) hh hw hq hqw
  simp only [if_true] at hlen
  refine ⟨out, x :: accNew, ?_, hon, by simpa using hoc, hoh, how, by simp [hlen], ?_⟩
  · rw [RescaleBlock.forward, mkRescaleBlock_down_scale, mkRescaleBlock_down_layers,
      List.range_eq_range']
    simp only [if_true]
    rw [hgo, Option.map_some']
    rfl
  · intro t ht
    match t, ht with
    | 0, ht =>
      refine ⟨rfl, by simp [List.get, hc], ?_, ?_⟩
      · simp only [List.get, Nat.sub_zero, pow_zero]
        rw [hh]
      · simp only [List.get, Nat.sub_zero, pow_zero]
        rw [hw]
    | t + 1, ht =>
      have ht' : t < accNew.length := by
        simp at ht
        omega
      obtain ⟨he1, he2, he3, he4⟩ := helts t ht'
      exact ⟨he1, by simpa using he2, by rw [show N - (t + 1) = N - t - 1 from by omega]; exact he3,
        by rw [show N - (t + 1) = N - t - 1 from by omega]; exact he4⟩

/-- The downscale RescaleBlock.forward without scale collection. -/
lemma down_forward_false (base : ℕ) (params : ℕ → ConvBN) (N : ℕ) (x : Tensor ℝ) (q qw : ℕ)
    (hc : x.c = base) (hh : x.h = 2 ^ N * q) (hw : x.w = 2 ^ N * qw)
    (hq : 1 ≤ q) (hqw : 1 ≤ qw) :
    ∃ out, (mkRescaleBlock N (1 / 2) base params).forward x none false false
        = some (out, none) ∧
      out.n = x.n ∧ out.c = base * 2 ^ N ∧ out.h = q ∧ out.w = qw := by
  obtain ⟨out, accNew, hgo, hon, hoc, hoh, how, _, _⟩ :=
    down_go base params false N 0 x [] q qw (by simp [hc]) hh hw hq hqw
  refine ⟨out, ?_, hon, by simpa using hoc, hoh, how⟩
  rw [RescaleBlock.forward, mkRescaleBlock_down_scale, mkRescaleBlock_down_layers,
    List.range_eq_range']
  simp only [Bool.false_eq_true, if_false]
  rw [hgo, Option.map_some']

/-- The upscale RescaleBlock.forward with skip fusion against a well-shaped
pyramid. -/
lemma up_forward_skip (base : ℕ) (params : ℕ → ConvBN) (N n0 q qw : ℕ)
    (ps : List (Tensor ℝ)) (fm : Tensor ℝ)
    (hq : 1 ≤ q) (hqw : 1 ≤ qw) (hlen : ps.length = N + 1)
    (hshapes : ∀ t (ht : t < ps.length),
      (ps.get ⟨t, ht⟩).n = n0 ∧ (ps.get ⟨t, ht⟩).c = base * 2 ^ t ∧
      (ps.get ⟨t, ht⟩).h = 2 ^ (N - t) * q ∧ (ps.get ⟨t, ht⟩).w = 2 ^ (N - t) * qw)
    (hn : fm.n = n0) (hc : fm.c = base * 2 ^ N) (hh : fm.h = q) (hw : fm.w = qw) :
    ∃ out, (mkRescaleBlock N 2 base params).forward fm (some ps) false true
        = some (out, none) ∧
      out.n = n0 ∧ out.c = base ∧ out.h = 2 ^ N * q ∧ out.w = 2 ^ N * qw := by
  obtain ⟨out, hgo, hon, hoc, hoh, how⟩ :=
    up_go_skip base params N n0 q qw ps hq hqw hlen hshapes N fm [] le_rfl hn hc
      (by rw [hh]; simp) (by rw [hw]; simp)
  refine ⟨out, ?_, hon, hoc, hoh, how⟩
  rw [RescaleBlock.forward, mkRescaleBlock_up_scale, mkRescaleBlock_up_layers]
  simp only [Bool.false_eq_true, if_false]
  rw [show (0 : ℕ) = N - N from by omega, hgo, Option.map_some']

/-- The upscale RescaleBlock.forward without skip fusion. -/
lemma up_forward_noskip (base : ℕ) (params : ℕ → ConvBN) (N : ℕ)
    (pyrO : Option (List (Tensor ℝ))) (fm : Tensor ℝ)
    (hc : fm.c = base * 2 ^ N) (hh : 1 ≤ fm.h) (hw : 1 ≤ fm.w) :
    ∃ out, (mkRescaleBlock N 2 base params).forward fm pyrO false false
        = some (out, none) ∧
      out.n = fm.n ∧ out.c = base ∧ out.h = 2 ^ N * fm.h ∧ out.w = 2 ^ N * fm.w := by
  obtain ⟨out, hgo, hon, hoc, hoh, how⟩ :=
    up_go_noskip base params N 0 fm [] pyrO hc hh hw
  refine ⟨out, ?_, hon, hoc, hoh, how⟩
  rw [RescaleBlock.forward, mkRescaleBlock_up_scale, mkRescaleBlock_up_layers]
  simp only [Bool.false_eq_true, if_false]
  rw [hgo, Option.map_some']

/-- The generator pipeline from the output-sized feature map onwards
(downscale, bottleneck, upscale, final block), for either skip setting. -/
lemma generator_tail (base n_blocks N : ℕ) (skip_flag : Bool) (P : GenParams)
    (fm1 : Tensor ℝ) (q qw n0 : ℕ)
    (h1n : fm1.n = n0) (h1c : fm1.c = base) (h1h : fm1.h = 2 ^ N * q)
    (h1w : fm1.w = 2 ^ N * qw) (hq : 2 ≤ q) (hqw : 2 ≤ qw)
    (h4h : 4 ≤ 2 ^ N * q) (h4w : 4 ≤ 2 ^ N * qw) :
    ∃ y, ((mkRescaleBlock N (1 / 2) base P.down).forward fm1 none skip_flag false).bind
        (fun dres =>
          (bottleneckForward ((List.range n_blocks).map fun t =>
              ResnetBlock.mk (base * 2 ^ N) (P.res t 0) (P.res t 1) (P.res t 2)) dres.1).bind
            fun fm2 =>
              ((mkRescaleBlock N 2 base P.up).forward fm2 dres.2 false skip_flag).bind
                fun ures => finalBlockForward base P.final ures.1) = some y ∧
      y.n = n0 ∧ y.c = 3 ∧ y.h = 2 ^ N * q ∧ y.w = 2 ^ N * qw ∧
      ∀ b c i j, -1 ≤ y.data b c i j ∧ y.data b c i j ≤ 1 := by
  have hdim : ∀ rb ∈ (List.range n_blocks).map fun t =>
      ResnetBlock.mk (base * 2 ^ N) (P.res t 0) (P.res t 1) (P.res t 2),
      rb.dim = base * 2 ^ N := by
    intro rb hrb
    rw [List.mem_map] at hrb
    obtain ⟨t, _, rfl⟩ := hrb
    rfl
  cases skip_flag with
  | true =>
    obtain ⟨mid, scales, hdown, hmn, hmc, hmh, hmw, hslen, hselts⟩ :=
      down_forward_true base P.down N fm1 q qw h1c h1h h1w (by omega) (by omega)
    obtain ⟨fm2, hbot, hbn, hbc, hbh, hbw⟩ := bottleneck_shape (base * 2 ^ N) _ mid hdim
      hmc (by omega) (by omega)
    obtain ⟨ures, hup, hun, huc, huh, huw⟩ := up_forward_skip base P.up N fm1.n q qw
      scales fm2 (by omega) (by omega) hslen hselts (by rw [hbn, hmn])
      (by rw [hbc, hmc]) (by rw [hbh, hmh]) (by rw [hbw, hmw])
    obtain ⟨y, hfin, hyn, hyc, hyh, hyw, hybound⟩ := final_shape_range base P.final ures
      huc (by omega) (by omega)
    refine ⟨y, ?_, by rw [hyn, hun, h1n], hyc, by rw [hyh, huh], by rw [hyw, huw], hybound⟩
    rw [hdown]
    simp only [Option.some_bind]
    rw [hbot]
    simp only [Option.some_bind]
    rw [hup]
    simp only [Option.some_bind]
    exact hfin
  | false =>
    obtain ⟨mid, hdown, hmn, hmc, hmh, hmw⟩ :=
      down_forward_false base P.down N fm1 q qw h1c h1h h1w (by omega) (by omega)
    obtain ⟨fm2, hbot, hbn, hbc, hbh, hbw⟩ := bottleneck_shape (base * 2 ^ N) _ mid hdim
      hmc (by omega) (by omega)
    obtain ⟨ures, hup, hun, huc, huh, huw⟩ := up_forward_noskip base P.up N none fm2
      (by rw [hbc, hmc]) (by omega) (by omega)
    obtain ⟨y, hfin, hyn, hyc, hyh, hyw, hybound⟩ := final_shape_range base P.final ures
      huc (by rw [huh, hbh, hmh]; omega) (by rw [huw, hbw, hmw]; omega)
    refine ⟨y, ?_, by rw [hyn, hun, hbn, hmn, h1n], hyc,
      by rw [hyh, huh, hbh, hmh], by rw [hyw, huw, hbw, hmw], hybound⟩
    rw [hdown]
    simp only [Option.some_bind]
    rw [hbot]
    simp only [Option.some_bind]
    rw [hup]
    simp only [Option.some_bind]
    exact hfin

lemma two_le_of_pow_succ_le (N q : ℕ) (h : 2 ^ (N + 1) ≤ 2 ^ N * q) : 2 ≤ q := by
  by_contra hq
  push_neg at hq
  have h1 : 2 ^ N * q ≤ 2 ^ N * 1 := Nat.mul_le_mul_left _ (by omega)
  rw [pow_succ] at h
  have h2 : 2 ^ N * 2 ≤ 2 ^ N * 1 := le_trans h h1
  have hp : 0 < 2 ^ N := pow_pos (by norm_num) N
  have := Nat.le_of_mul_le_mul_left h2 hp
  omega

/-- C1: for a valid input (3 channels, spatial dims at least 4), a
requested output size reachable by the pyramid (each dimension divisible by
2^n_downsampling, at least 2^(n_downsampling+1) so every stage stays within
the reflection-pad limits, and at least 4 for the final 7x7 convolution), a
shift descriptor absent or with reflect-paddings below the feature width,
and either skip setting, Generator.forward succeeds and returns a tensor
with the same batch size, exactly 3 channels, spatial size exactly
output_size, and every value in [-1, 1]. -/
theorem generator_output_shape_range (base n_blocks N : ℕ) (skip_flag : Bool) (P : GenParams)
    (x : Tensor ℝ) (oh ow : ℕ) (aff : Option (ℚ × ℚ))
    (hc : x.c = 3) (hxh : 4 ≤ x.h) (hxw : 4 ≤ x.w)
    (hdh : 2 ^ N ∣ oh) (hdw : 2 ^ N ∣ ow)
    (hoh2 : 2 ^ (N + 1) ≤ oh) (how2 : 2 ^ (N + 1) ≤ ow)
    (hoh4 : 4 ≤ oh) (how4 : 4 ≤ ow)
    (haff : ∀ sh ∈ aff, (geoPads x.w sh).1 < x.w ∧ (geoPads x.w sh).2 < x.w) :
    ∃ y, (mkGenerator base n_blocks N skip_flag P).forward x (oh, ow) aff = some y ∧
      y.n = x.n ∧ y.c = 3 ∧ y.h = oh ∧ y.w = ow ∧
      ∀ b c i j, -1 ≤ y.data b c i j ∧ y.data b c i j ≤ 1 := by
  obtain ⟨q, hqe⟩ := hdh
  obtain ⟨qw, hqwe⟩ := hdw
  have hq2 : 2 ≤ q := two_le_of_pow_succ_le N q (by rw [← hqe]; exact hoh2)
  have hqw2 : 2 ≤ qw := two_le_of_pow_succ_le N qw (by rw [← hqwe]; exact how2)
  obtain ⟨y0, hy0, h0n, h0c, h0h, h0w⟩ := entry_shape base P.entry x hc hxh hxw
  cases aff with
  | none =>
    obtain ⟨y, htail, hyn, hyc, hyh, hyw, hyb⟩ := generator_tail base n_blocks N skip_flag P
      (interpBilinear oh ow y0) q qw x.n (by simp [h0n]) (by simp [h0c])
      (by simp [hqe]) (by simp [hqwe]) hq2 hqw2 (by omega) (by omega)
    refine ⟨y, ?_, hyn, hyc, by rw [hyh, ← hqe], by rw [hyw, ← hqwe], hyb⟩
    simp only [Generator.forward, mkGenerator]
    rw [hy0]
    simp only [Option.some_bind]
    exact htail
  | some sh =>
    obtain ⟨hpl, hpr⟩ := haff sh (by simp)
    obtain ⟨yp, hyp, hpn, hpc, hph, hpw⟩ := reflectPad2d_shape (geoPads y0.w sh).1
      (geoPads y0.w sh).2 0 0 y0 (by rw [h0w]; exact hpl) (by rw [h0w]; exact hpr)
      (by omega) (by omega)
    have hgeo : geoTransformForward P.geoGrid y0 (oh, ow) sh
        = some (gridSampleBorder yp oh ow (P.geoGrid sh (oh, ow))) := by
      rw [geoTransformForward, hyp, Option.map_some']
    obtain ⟨y, htail, hyn, hyc, hyh, hyw, hyb⟩ := generator_tail base n_blocks N skip_flag P
      (gridSampleBorder yp oh ow (P.geoGrid sh (oh, ow))) q qw x.n
      (by simp [hpn, h0n]) (by simp [hpc, h0c]) (by simp [hqe]) (by simp [hqwe])
      hq2 hqw2 (by omega) (by omega)
    refine ⟨y, ?_, hyn, hyc, by rw [hyh, ← hqe], by rw [hyw, ← hqwe], hyb⟩
    simp only [Generator.forward, mkGenerator]
    rw [hy0]
    simp only [Option.some_bind]
    rw [hgeo]
    simp only [Option.some_bind]
    exact htail

/- ----------------------------------------------------------------------
C1 witness and C7.  Concrete parameter bundles, the round-trip property of
a downscale/upscale RescaleBlock pair, and its failure on odd dims.
---------------------------------------------------------------------- -/

/-- An all-zero conv + batch-norm parameter bundle, for concrete
instantiation (the shape results hold for any parameters). -/
def zeroConvBN : ConvBN :=
  ⟨fun _ _ _ _ => 0, fun _ => 0, fun _ => 0, fun _ => 0, fun _ => 0, fun _ => 0⟩

/-- An all-zero generator parameter supply with an all-centre sampling
grid. -/
def zeroGenParams : GenParams :=
  ⟨zeroConvBN, fun _ => zeroConvBN, fun _ _ => zeroConvBN, fun _ => zeroConvBN,
    zeroConvBN, fun _ _ _ _ _ => (0, 0)⟩

/-- A 4x3x64x64 all-zero probe input. -/
def genProbe : Tensor ℝ := ⟨4, 3, 64, 64, fun _ _ _ _ => 0⟩

/-- Witness for C1: the end-to-end scenario — a 4x3x64x64 input,
output_size (64, 64), no shift descriptor, 3 downsampling stages, 6
residual blocks, skip connections on — yields a 4x3x64x64 output with all
values in [-1, 1]. -/
theorem generator_output_shape_range_witness :
    ∃ y, (mkGenerator 64 6 3 true zeroGenParams).forward genProbe (64, 64) none = some y ∧
      y.n = genProbe.n ∧ y.c = 3 ∧ y.h = 64 ∧ y.w = 64 ∧
      ∀ b c i j, -1 ≤ y.data b c i j ∧ y.data b c i j ≤ 1 :=
  generator_output_shape_range 64 6 3 true zeroGenParams genProbe 64 64 none
    rfl (by decide) (by decide) ⟨8, rfl⟩ ⟨8, rfl⟩ (by decide) (by decide)
    (by decide) (by decide) (fun sh h => absurd h (Option.not_mem_none sh))

/-- C7 as amended: when the input's spatial dims are multiples of
2^N (with positive quotients), a downscale RescaleBlock (scale 1/2, N
stages, collecting all scales) followed by an upscale RescaleBlock
(scale 2) with the same N and base channels, fusing the collected
pyramid, succeeds and returns an output whose spatial size equals the
pre-downscale input's. -/
theorem rescale_roundtrip (base N q qw : ℕ) (paramsD paramsU : ℕ → ConvBN) (x : Tensor ℝ)
    (hc : x.c = base) (hh : x.h = 2 ^ N * q) (hw : x.w = 2 ^ N * qw)
    (hq : 1 ≤ q) (hqw : 1 ≤ qw) :
    ∃ mid scales out,
      (mkRescaleBlock N (1 / 2) base paramsD).forward x none true false
          = some (mid, some scales) ∧
      (mkRescaleBlock N 2 base paramsU).forward mid (some scales) false true
          = some (out, none) ∧
      out.n = x.n ∧ out.c = base ∧ out.h = x.h ∧ out.w = x.w := by
  obtain ⟨mid, scales, hdown, hmn, hmc, hmh, hmw, hslen, hselts⟩ :=
    down_forward_true base paramsD N x q qw hc hh hw hq hqw
  obtain ⟨out, hup, hon, hoc, hoh, how⟩ := up_forward_skip base paramsU N x.n q qw
    scales mid hq hqw hslen hselts hmn hmc hmh hmw
  exact ⟨mid, scales, out, hdown, hup, hon, hoc, by rw [hoh, hh], by rw [how, hw]⟩

/-- A 1x1x2x2 all-zero probe (2 = 2^1 * 1). -/
def rrProbe : Tensor ℝ := ⟨1, 1, 2, 2, fun _ _ _ _ => 0⟩

/-- Witness for C7 as amended: N = 1, base 1, a 2x2 input: the
downscale/upscale round trip restores the 2x2 spatial size. -/
theorem rescale_roundtrip_witness :
    ∃ mid scales out,
      (mkRescaleBlock 1 (1 / 2) 1 (fun i => zeroConvBN)).forward rrProbe none true false
          = some (mid, some scales) ∧
      (mkRescaleBlock 1 2 1 (fun i => zeroConvBN)).forward mid (some scales) false true
          = some (out, none) ∧
      out.n = rrProbe.n ∧ out.c = 1 ∧ out.h = rrProbe.h ∧ out.w = rrProbe.w :=
  rescale_roundtrip 1 1 1 1 (fun i => zeroConvBN) (fun i => zeroConvBN) rrProbe
    rfl rfl rfl (by decide) (by decide)

/-- A 1x1x65x65 all-zero probe with odd spatial dims. -/
def ce7X : Tensor ℝ := ⟨1, 1, 65, 65, fun _ _ _ _ => 0⟩

/-- C7 counterexample: on a 65x65 input with N = 1 the downscale max-pool
floors 65 to 32, the upscale doubles 32 to 64, and the skip fusion then
adds the 64x64 feature map to the cached 65x65 pyramid level: the shapes
mismatch and the composition fails (in the source, a runtime size-mismatch
error on the tensor addition), so no output matching the pre-downscale
spatial size is produced. -/
theorem rescale_roundtrip_fails_odd :
    ((mkRescaleBlock 1 (1 / 2) 1 (fun i => zeroConvBN)).forward ce7X none true false).bind
      (fun dres => dres.2.bind fun ps =>
        (mkRescaleBlock 1 2 1 (fun i => zeroConvBN)).forward dres.1 (some ps) false true)
      = none := by
  have hxh : ce7X.h = 65 := rfl
  have hxw : ce7X.w = 65 := rfl
  obtain ⟨fm2, hfm2, hn2, hc2, hh2, hw2⟩ :=
    rescaleConv_shape (downLayer 1 (fun i => zeroConvBN) 0) ce7X rfl (by omega) (by omega)
  obtain ⟨fm4, hfm4, hn4, hc4, hh4, hw4⟩ := maxPool2_shape fm2 (by omega) (by omega)
  have h4h : fm4.h = 32 := by omega
  have h4w : fm4.w = 32 := by omega
  have hdown : (mkRescaleBlock 1 (1 / 2) 1 (fun i => zeroConvBN)).forward ce7X none true false
      = some (fm4, some [ce7X, fm4]) := by
    rw [RescaleBlock.forward, mkRescaleBlock_down_scale, mkRescaleBlock_down_layers,
      show List.range 1 = [0] from rfl]
    simp only [List.map_cons, List.map_nil, rescaleGo]
    rw [if_neg (show ¬ ((1 : ℚ) < 1 / 2) by norm_num), hfm2, Option.some_bind,
      if_neg (show ¬ (false = true) by simp), Option.some_bind,
      if_pos (show (1 : ℚ) / 2 < 1 by norm_num), hfm4, Option.some_bind]
    simp [rescaleGo]
  obtain ⟨fm2u, hfm2u, hn2u, hc2u, hh2u, hw2u⟩ :=
    rescaleConv_shape (upLayer 1 (fun i => zeroConvBN) 0) (interpNearest 2 fm4)
      (by rw [(interpNearest_two_shape fm4).2.1, hc4, hc2]; rfl)
      (by rw [(interpNearest_two_shape fm4).2.2.1]; omega)
      (by rw [(interpNearest_two_shape fm4).2.2.2]; omega)
  have h2uh : fm2u.h = 64 := by
    rw [hh2u, (interpNearest_two_shape fm4).2.2.1]
    omega
  have hne : ¬ (fm2u.n = ce7X.n ∧ fm2u.c = ce7X.c ∧ fm2u.h = ce7X.h ∧ fm2u.w = ce7X.w) := by
    intro hcon
    omega
  have hlen2 : 0 + 2 ≤ ([ce7X, fm4] : List (Tensor ℝ)).length := by simp
  have hup : (mkRescaleBlock 1 2 1 (fun i => zeroConvBN)).forward fm4
      (some [ce7X, fm4]) false true = none := by
    rw [RescaleBlock.forward, mkRescaleBlock_up_scale, mkRescaleBlock_up_layers,
      show revRange 1 = [0] from rfl]
    simp only [List.map_cons, List.map_nil, rescaleGo]
    rw [if_pos (show (1 : ℚ) < 2 by norm_num), hfm2u, Option.some_bind, if_pos trivial,
      Option.some_bind, if_pos hlen2,
      show ([ce7X, fm4] : List (Tensor ℝ)).get? (([ce7X, fm4] : List (Tensor ℝ)).length - (0 + 2))
        = some ce7X from rfl,
      Option.some_bind, addT, if_neg hne]
    simp
  rw [hdown]
  exact hup
